import Mathlib

/-!
Verification development for the Jornal Crucial feed aggregator
(`app_min.py` and `jornal2.py`).

Strings are modelled as `List Char`.  Python regular-expression
substitutions are embedded as total character-list scanners that reproduce
the leftmost, non-overlapping matching discipline of `re.sub`.  Machine
time is modelled with `Int` seconds; the timestamps produced by
`calendar.timegm` are integers, so no floating-point behaviour is lost.
-/

namespace JC

/-- Whitespace class used by Python's `\s` and `str.strip` (ASCII range:
space, tab, newline, carriage return, vertical tab, form feed). -/
def isWs (c : Char) : Bool :=
  c = ' ' || c = '\t' || c = '\n' || c = '\r' || c = Char.ofNat 11 || c = Char.ofNat 12

/-- Python `p in s` substring test on character lists. -/
def occursList (p : List Char) : List Char → Bool
  | [] => p.isEmpty
  | c :: rest => p.isPrefixOf (c :: rest) || occursList p rest

/-!  `RE_TAG = <[^>]+>` replaced by a space (`app_min.py` line 84/118).
The scanner buffers the potential tag after a `<`; a `>` with at least one
buffered character in between completes a match (emitted as one space),
`<>` is not a match and is emitted verbatim, and an unterminated tag at the
end of input is emitted verbatim. -/
def subTagAux : Option (List Char) → List Char → List Char
  | none, [] => []
  | some buf, [] => buf.reverse
  | none, c :: rest =>
    if c = '<' then subTagAux (some [c]) rest else c :: subTagAux none rest
  | some buf, c :: rest =>
    if c = '>' then
      if 2 ≤ buf.length then ' ' :: subTagAux none rest
      else buf.reverse ++ '>' :: subTagAux none rest
    else subTagAux (some (c :: buf)) rest

def subTag (l : List Char) : List Char := subTagAux none l

/-- States for the `<name[^>]*>` scanners (`RE_IMG`, `RE_P_OPEN`). -/
inductive TagSt where
  | norm : TagSt
  | pre (buf : List Char) (pat : List Char) : TagSt
  | tl (buf : List Char) : TagSt

/-!  `<name[^>]*>` (case-insensitive) replaced by a space.  `pre` matches
the literal tag name after `<`; on a mismatch the buffered characters are
emitted and scanning restarts at the mismatching character.  `tl` consumes
`[^>]*` until the closing `>`. -/
def subNameTagAux (name : List Char) : TagSt → List Char → List Char
  | .norm, [] => []
  | .pre buf _, [] => buf.reverse
  | .tl buf, [] => buf.reverse
  | .norm, c :: rest =>
    if c = '<' then subNameTagAux name (.pre [c] name) rest
    else c :: subNameTagAux name .norm rest
  | .pre buf pat, c :: rest =>
    match pat with
    | p :: ps =>
      if c.toLower = p then
        match ps with
        | [] => subNameTagAux name (.tl (c :: buf)) rest
        | _ :: _ => subNameTagAux name (.pre (c :: buf) ps) rest
      else
        buf.reverse ++
          (if c = '<' then subNameTagAux name (.pre [c] name) rest
           else c :: subNameTagAux name .norm rest)
    | [] =>
      if c = '>' then ' ' :: subNameTagAux name .norm rest
      else subNameTagAux name (.tl (c :: buf)) rest
  | .tl buf, c :: rest =>
    if c = '>' then ' ' :: subNameTagAux name .norm rest
    else subNameTagAux name (.tl (c :: buf)) rest

/-- `RE_IMG = <img[^>]*>` (case-insensitive), replaced by a space. -/
def subImg (l : List Char) : List Char := subNameTagAux "img".data .norm l

/-- `RE_P_OPEN = <p[^>]*>` (case-insensitive), replaced by a space. -/
def subPOpen (l : List Char) : List Char := subNameTagAux "p".data .norm l

/-- States for the `<name\s*/?>` scanners (`RE_BR`, `RE_P_CLOSE`). -/
inductive WTagSt where
  | norm : WTagSt
  | pre (buf : List Char) (pat : List Char) : WTagSt
  | ws (buf : List Char) : WTagSt
  | sl (buf : List Char) : WTagSt

/-!  `<name\s*/?>` (case-insensitive; the optional `/` only when
`allowSlash`), replaced by a space.  `ws` consumes `\s*`, `sl` is the state
right after the optional slash, which must be followed by `>`. -/
def subWsTagAux (name : List Char) (allowSlash : Bool) : WTagSt → List Char → List Char
  | .norm, [] => []
  | .pre buf _, [] => buf.reverse
  | .ws buf, [] => buf.reverse
  | .sl buf, [] => buf.reverse
  | .norm, c :: rest =>
    if c = '<' then subWsTagAux name allowSlash (.pre [c] name) rest
    else c :: subWsTagAux name allowSlash .norm rest
  | .pre buf pat, c :: rest =>
    match pat with
    | p :: ps =>
      if c.toLower = p then
        match ps with
        | [] => subWsTagAux name allowSlash (.ws (c :: buf)) rest
        | _ :: _ => subWsTagAux name allowSlash (.pre (c :: buf) ps) rest
      else
        buf.reverse ++
          (if c = '<' then subWsTagAux name allowSlash (.pre [c] name) rest
           else c :: subWsTagAux name allowSlash .norm rest)
    | [] =>
      if c = '>' then ' ' :: subWsTagAux name allowSlash .norm rest
      else subWsTagAux name allowSlash (.ws (c :: buf)) rest
  | .ws buf, c :: rest =>
    if isWs c then subWsTagAux name allowSlash (.ws (c :: buf)) rest
    else if c = '>' then ' ' :: subWsTagAux name allowSlash .norm rest
    else if allowSlash && c = '/' then subWsTagAux name allowSlash (.sl (c :: buf)) rest
    else
      buf.reverse ++
        (if c = '<' then subWsTagAux name allowSlash (.pre [c] name) rest
         else c :: subWsTagAux name allowSlash .norm rest)
  | .sl buf, c :: rest =>
    if c = '>' then ' ' :: subWsTagAux name allowSlash .norm rest
    else
      buf.reverse ++
        (if c = '<' then subWsTagAux name allowSlash (.pre [c] name) rest
         else c :: subWsTagAux name allowSlash .norm rest)

/-- `RE_BR = <br\s*/?>` (case-insensitive), replaced by a space. -/
def subBr (l : List Char) : List Char := subWsTagAux "br".data true .norm l

/-- `RE_P_CLOSE = </p\s*>` (case-insensitive), replaced by a space. -/
def subPClose (l : List Char) : List Char := subWsTagAux "/p".data false .norm l

/-- The entity table of the unescape scanner: given the characters after a
`&`, returns the replacement character and the number of consumed
characters. -/
def entMatch (rest : List Char) : Option (Char × Nat) :=
  match rest with
  | 'l' :: 't' :: ';' :: _ => some ('<', 3)
  | 'g' :: 't' :: ';' :: _ => some ('>', 3)
  | 'a' :: 'm' :: 'p' :: ';' :: _ => some ('&', 4)
  | 'q' :: 'u' :: 'o' :: 't' :: ';' :: _ => some ('"', 5)
  | '#' :: '3' :: '9' :: ';' :: _ => some (Char.ofNat 39, 4)
  | _ => none

/-- Models Python's `html.unescape`, restricted to the core named and
numeric entity references exercised by this development (`&lt;` `&gt;`
`&amp;` `&quot;` `&#39;`).  Like `html.unescape`, replacement happens in a
single left-to-right pass: the text produced by a replacement is not
rescanned (so `&amp;lt;` becomes `&lt;`, not `<`).  Fuelled scanner; the
input length always suffices as fuel. -/
def pyUnescapeF : Nat → List Char → List Char
  | 0, l => l
  | _ + 1, [] => []
  | fuel + 1, c :: rest =>
    if c = '&' then
      match entMatch rest with
      | some (d, k) => d :: pyUnescapeF fuel (rest.drop k)
      | none => c :: pyUnescapeF fuel rest
    else c :: pyUnescapeF fuel rest

def pyUnescape (l : List Char) : List Char := pyUnescapeF l.length l

/-- The part of `\S+` consumed after `https?://`: at least one non-space
character, maximal. -/
def urlTail (r : List Char) : Option (List Char) :=
  match r.takeWhile (fun c => !isWs c) with
  | [] => none
  | _ :: _ => some (r.dropWhile (fun c => !isWs c))

/-- Attempts `https?://\S+` at the head of the list; on success returns the
remaining input after the match.  The greedy `s?` tries `https://` first;
the two literal prefixes cannot both match, so the if-chain is faithful. -/
def urlAfter (l : List Char) : Option (List Char) :=
  if "https://".data.isPrefixOf l then urlTail (l.drop 8)
  else if "http://".data.isPrefixOf l then urlTail (l.drop 7)
  else none

/-- `RE_URL = https?://\S+` replaced by a space; fuelled scanner (the fuel
is instantiated with the input length, which always suffices because every
match consumes at least eight characters). -/
def subUrlF : Nat → List Char → List Char
  | 0, l => l
  | _ + 1, [] => []
  | fuel + 1, c :: rest =>
    match urlAfter (c :: rest) with
    | some r => ' ' :: subUrlF fuel r
    | none => c :: subUrlF fuel rest

def subUrl (l : List Char) : List Char := subUrlF l.length l

/-- Python `str.replace(old, " ")`: all non-overlapping occurrences,
left-to-right; fuelled scanner, the input length always suffices as fuel
for the non-empty patterns used here. -/
def replaceAllF (old : List Char) : Nat → List Char → List Char
  | 0, l => l
  | _ + 1, [] => []
  | fuel + 1, c :: rest =>
    if old.isPrefixOf (c :: rest) then
      ' ' :: replaceAllF old fuel ((c :: rest).drop old.length)
    else c :: replaceAllF old fuel rest

def replaceAll (old : List Char) (l : List Char) : List Char :=
  replaceAllF old l.length l

/-- The `BLACKLIST` of boilerplate phrases (`app_min.py` lines 92-107). -/
def BLACKLIST : List (List Char) :=
  ["Leia mais".data, "Veja mais".data, "VÍDEOS:".data, "Veja os vídeos".data,
   "Siga o canal".data, "Clique aqui".data, "Participe do canal".data,
   "Receba as notícias".data, "The post".data, "appeared first on".data,
   "Leia a íntegra".data, "Leia a nota".data, "Assista".data, "AO VIVO".data]

/-- The blacklist loop of `strip_html`: `for b in BLACKLIST: if b in t:
t = t.replace(b, " ")`. -/
def blacklistScrub (l : List Char) : List Char :=
  BLACKLIST.foldl (fun t b => if occursList b t then replaceAll b t else t) l

/-- `RE_WS = \s+` replaced by a space; the flag records whether the
previous character was whitespace (i.e. we are inside a run). -/
def wsCollapseAux : Bool → List Char → List Char
  | _, [] => []
  | prevWs, c :: rest =>
    if isWs c then
      if prevWs then wsCollapseAux true rest
      else ' ' :: wsCollapseAux true rest
    else c :: wsCollapseAux false rest

def wsCollapse (l : List Char) : List Char := wsCollapseAux false l

/-- Python `str.strip()` (whitespace at both ends). -/
def pyStrip (l : List Char) : List Char :=
  ((l.dropWhile isWs).reverse.dropWhile isWs).reverse

/-- `RE_WS.sub(" ", t).strip()`, the final step of `strip_html`. -/
def collapseStrip (l : List Char) : List Char := pyStrip (wsCollapse l)

/-- `strip_html` (`app_min.py` lines 110-124): drop `<img>`, `<br>`,
`</p>`, `<p>` variants and remaining tags, unescape HTML entities, drop
bare URLs, remove blacklisted boilerplate phrases, collapse whitespace and
strip the ends.  `if not text: return ""` is the empty-input guard. -/
def strip_html (l : List Char) : List Char :=
  if l.isEmpty then []
  else
    let t1 := subImg l
    let t2 := subBr t1
    let t3 := subPClose t2
    let t4 := subPOpen t3
    let t5 := subTag t4
    let t6 := pyUnescape t5
    let t7 := subUrl t6
    let t8 := blacklistScrub t7
    collapseStrip t8

/-- Python `t[:max].rsplit(" ", 1)[0]`: everything before the last space,
or the whole string when it has no space. -/
def rsplitFirst (l : List Char) : List Char :=
  if ' ' ∈ l then ((l.reverse.dropWhile (fun c => !(c = ' '))).tail).reverse
  else l

/-- Python `str.rstrip(cs)`. -/
def pyRstrip (cs : List Char) (l : List Char) : List Char :=
  (l.reverse.dropWhile (fun c => c ∈ cs)).reverse

/-- `summarize` (`app_min.py` lines 127-132): strip the HTML, return as-is
when it fits in `maxChars`, otherwise cut the first `maxChars` characters
back to the last space, trim trailing `" ,;:"` and append an ellipsis. -/
def summarize (text : List Char) (maxChars : Nat) : List Char :=
  let t := strip_html text
  if t.length ≤ maxChars then t
  else pyRstrip " ,;:".data (rsplitFirst (t.take maxChars)) ++ ['…']

/-! ### Each phase of `strip_html` is the identity on pattern-free input -/

theorem subTagAux_no_lt : ∀ l : List Char, '<' ∉ l → subTagAux none l = l := by
  intro l h
  induction l with
  | nil => rfl
  | cons c rest ih =>
    have hc : ¬ c = '<' := fun e => h (e ▸ List.mem_cons_self c rest)
    have hr : '<' ∉ rest := fun m => h (List.mem_cons_of_mem _ m)
    simp [subTagAux, hc, ih hr]

theorem subNameTagAux_no_lt (name : List Char) :
    ∀ l : List Char, '<' ∉ l → subNameTagAux name .norm l = l := by
  intro l h
  induction l with
  | nil => rfl
  | cons c rest ih =>
    have hc : ¬ c = '<' := fun e => h (e ▸ List.mem_cons_self c rest)
    have hr : '<' ∉ rest := fun m => h (List.mem_cons_of_mem _ m)
    simp [subNameTagAux, hc, ih hr]

theorem subWsTagAux_no_lt (name : List Char) (allowSlash : Bool) :
    ∀ l : List Char, '<' ∉ l → subWsTagAux name allowSlash .norm l = l := by
  intro l h
  induction l with
  | nil => rfl
  | cons c rest ih =>
    have hc : ¬ c = '<' := fun e => h (e ▸ List.mem_cons_self c rest)
    have hr : '<' ∉ rest := fun m => h (List.mem_cons_of_mem _ m)
    simp [subWsTagAux, hc, ih hr]

theorem pyUnescapeF_no_amp :
    ∀ (f : Nat) (l : List Char), '&' ∉ l → pyUnescapeF f l = l := by
  intro f
  induction f with
  | zero => intro l _; rfl
  | succ f ih =>
    intro l h
    cases l with
    | nil => rfl
    | cons c rest =>
      have hc : ¬ c = '&' := fun e => h (e ▸ List.mem_cons_self c rest)
      have hr : '&' ∉ rest := fun m => h (List.mem_cons_of_mem _ m)
      simp [pyUnescapeF, hc, ih rest hr]

theorem pyUnescape_no_amp (l : List Char) (h : '&' ∉ l) : pyUnescape l = l :=
  pyUnescapeF_no_amp _ l h

theorem occurs_of_isPrefixOf {p l : List Char} (h : p.isPrefixOf l = true) :
    occursList p l = true := by
  cases l with
  | nil =>
    cases p with
    | nil => rfl
    | cons a as => simp [List.isPrefixOf] at h
  | cons c rest => simp [occursList, h]

theorem occurs_tail {p : List Char} {c : Char} {rest : List Char}
    (h : occursList p (c :: rest) = false) : occursList p rest = false := by
  simp [occursList] at h
  exact h.2

theorem not_isPrefixOf_of_occurs {p l : List Char} (h : occursList p l = false) :
    p.isPrefixOf l = false := by
  cases hp : p.isPrefixOf l with
  | false => rfl
  | true => rw [occurs_of_isPrefixOf hp] at h; exact absurd h (by simp)

theorem urlAfter_none {l : List Char}
    (h1 : occursList "http://".data l = false)
    (h2 : occursList "https://".data l = false) : urlAfter l = none := by
  simp [urlAfter, not_isPrefixOf_of_occurs h1, not_isPrefixOf_of_occurs h2]

theorem subUrlF_id :
    ∀ (f : Nat) (l : List Char), occursList "http://".data l = false →
      occursList "https://".data l = false → subUrlF f l = l := by
  intro f
  induction f with
  | zero => intro l _ _; rfl
  | succ f ih =>
    intro l h1 h2
    cases l with
    | nil => rfl
    | cons c rest =>
      simp [subUrlF, urlAfter_none h1 h2, ih rest (occurs_tail h1) (occurs_tail h2)]

theorem subUrl_id (l : List Char)
    (h1 : occursList "http://".data l = false)
    (h2 : occursList "https://".data l = false) : subUrl l = l :=
  subUrlF_id _ l h1 h2

theorem replaceAllF_id (old : List Char) :
    ∀ (f : Nat) (l : List Char), occursList old l = false → replaceAllF old f l = l := by
  intro f
  induction f with
  | zero => intro l _; rfl
  | succ f ih =>
    intro l h
    cases l with
    | nil => rfl
    | cons c rest =>
      simp [replaceAllF, not_isPrefixOf_of_occurs h, ih rest (occurs_tail h)]

theorem foldlScrub_id :
    ∀ (bs : List (List Char)) (l : List Char), (∀ b ∈ bs, occursList b l = false) →
      bs.foldl (fun t b => if occursList b t then replaceAll b t else t) l = l := by
  intro bs
  induction bs with
  | nil => intro l _; rfl
  | cons b bs ih =>
    intro l h
    have hb := h b (List.mem_cons_self b bs)
    simp only [List.foldl_cons, hb, Bool.false_eq_true, if_false]
    exact ih l (fun b' m => h b' (List.mem_cons_of_mem _ m))

theorem blacklistScrub_id (l : List Char)
    (h : ∀ b ∈ BLACKLIST, occursList b l = false) : blacklistScrub l = l :=
  foldlScrub_id BLACKLIST l h

/-! ### The whitespace-collapse-and-strip step is idempotent -/

/-- No two adjacent characters are both whitespace. -/
def noWsPair (a b : Char) : Prop := ¬ (isWs a = true ∧ isWs b = true)

/-- Every whitespace character is a plain space. -/
def goodElems (l : List Char) : Prop := ∀ c ∈ l, isWs c = true → c = ' '

def goodChain (l : List Char) : Prop := l.Chain' noWsPair

theorem goodElems_wsCollapseAux : ∀ (l : List Char) (b : Bool), goodElems (wsCollapseAux b l) := by
  intro l
  induction l with
  | nil => intro b c hm; exact absurd hm (List.not_mem_nil c)
  | cons c rest ih =>
    intro b d hm hw
    by_cases hc : isWs c = true
    · cases b with
      | true => exact ih true d (by simpa [wsCollapseAux, hc] using hm) hw
      | false =>
        simp only [wsCollapseAux, hc, if_true] at hm
        rcases List.mem_cons.mp hm with h | h
        · exact h
        · exact ih true d h hw
    · simp only [wsCollapseAux, hc, Bool.false_eq_true, if_false] at hm
      rcases List.mem_cons.mp hm with h | h
      · exact absurd (h ▸ hw) hc
      · exact ih false d h hw

theorem head_wsCollapseAux_true :
    ∀ l : List Char, ∀ d, (wsCollapseAux true l).head? = some d → isWs d = false := by
  intro l
  induction l with
  | nil => intro d h; simp [wsCollapseAux] at h
  | cons c rest ih =>
    intro d h
    by_cases hc : isWs c = true
    · exact ih d (by simpa [wsCollapseAux, hc] using h)
    · simp only [wsCollapseAux, hc, Bool.false_eq_true, if_false, List.head?_cons,
        Option.some.injEq] at h
      subst h
      exact Bool.not_eq_true _ ▸ (by simpa using hc)

theorem goodChain_wsCollapseAux : ∀ (l : List Char) (b : Bool), goodChain (wsCollapseAux b l) := by
  intro l
  induction l with
  | nil => intro b; simp [wsCollapseAux, goodChain]
  | cons c rest ih =>
    intro b
    by_cases hc : isWs c = true
    · cases b with
      | true => simpa [wsCollapseAux, hc] using ih true
      | false =>
        simp only [wsCollapseAux, hc, if_true]
        refine List.chain'_cons'.mpr ⟨?_, ih true⟩
        intro y hy
        exact fun hp => by rw [head_wsCollapseAux_true rest y hy] at hp; exact absurd hp.2 (by simp)
    · simp only [wsCollapseAux, hc, Bool.false_eq_true, if_false]
      refine List.chain'_cons'.mpr ⟨?_, ih false⟩
      intro y _
      exact fun hp => hc hp.1

theorem wsCollapseAux_id :
    ∀ l : List Char, goodElems l → goodChain l →
      wsCollapseAux false l = l ∧
        ((∀ d, l.head? = some d → isWs d = false) → wsCollapseAux true l = l) := by
  intro l
  induction l with
  | nil => exact fun _ _ => ⟨rfl, fun _ => rfl⟩
  | cons c rest ih =>
    intro he hc
    have hrest := List.chain'_cons'.mp hc
    have herest : goodElems rest := fun d m => he d (List.mem_cons_of_mem _ m)
    obtain ⟨ihf, iht⟩ := ih herest hrest.2
    by_cases hw : isWs c = true
    · have hsp : c = ' ' := he c (List.mem_cons_self c rest) hw
      have hhd : ∀ d, rest.head? = some d → isWs d = false := by
        intro d hd
        have := hrest.1 d (by simp [hd])
        cases hdw : isWs d with
        | false => rfl
        | true => exact absurd ⟨hw, hdw⟩ this
      constructor
      · rw [show wsCollapseAux false (c :: rest) = ' ' :: wsCollapseAux true rest by
          simp [wsCollapseAux, hw], iht hhd, hsp]
      · intro h'
        exact absurd (h' c (by simp)) (by simp [hw])
    · constructor
      · simp [wsCollapseAux, hw, ihf]
      · intro _
        simp [wsCollapseAux, hw, ihf]

theorem wsCollapse_id (l : List Char) (he : goodElems l) (hc : goodChain l) :
    wsCollapse l = l :=
  (wsCollapseAux_id l he hc).1

theorem head_dropWhile_isWs :
    ∀ l : List Char, ∀ d, (l.dropWhile isWs).head? = some d → isWs d = false := by
  intro l
  induction l with
  | nil => intro d h; simp [List.dropWhile] at h
  | cons c rest ih =>
    intro d h
    by_cases hc : isWs c = true
    · exact ih d (by simpa [List.dropWhile, hc] using h)
    · simp only [List.dropWhile, hc, List.head?_cons, Option.some.injEq] at h
      subst h
      simpa using hc

theorem dropWhile_id_of_head (l : List Char)
    (h : ∀ d, l.head? = some d → isWs d = false) : l.dropWhile isWs = l := by
  cases l with
  | nil => rfl
  | cons c rest =>
    have := h c (by simp)
    simp [List.dropWhile, this]

theorem head_of_isPrefix {p l : List Char} (h : p <+: l) {d : Char}
    (hd : p.head? = some d) : l.head? = some d := by
  obtain ⟨t, rfl⟩ := h
  cases p with
  | nil => simp at hd
  | cons a as => simpa using hd

theorem pyStrip_isPrefix_dropWhile (l : List Char) : pyStrip l <+: l.dropWhile isWs := by
  have hs : (l.dropWhile isWs).reverse.dropWhile isWs <:+ (l.dropWhile isWs).reverse :=
    List.dropWhile_suffix isWs
  have := List.reverse_prefix.mpr hs
  simpa [pyStrip] using this

theorem head_pyStrip (l : List Char) :
    ∀ d, (pyStrip l).head? = some d → isWs d = false := by
  intro d hd
  exact head_dropWhile_isWs l d (head_of_isPrefix (pyStrip_isPrefix_dropWhile l) hd)

theorem reverse_pyStrip (l : List Char) :
    (pyStrip l).reverse = (l.dropWhile isWs).reverse.dropWhile isWs := by
  simp [pyStrip]

theorem pyStrip_idem (l : List Char) : pyStrip (pyStrip l) = pyStrip l := by
  have h1 : (pyStrip l).dropWhile isWs = pyStrip l :=
    dropWhile_id_of_head _ (head_pyStrip l)
  have h2 : (pyStrip l).reverse.dropWhile isWs = (pyStrip l).reverse := by
    rw [reverse_pyStrip]
    exact dropWhile_id_of_head _ (head_dropWhile_isWs _)
  calc pyStrip (pyStrip l)
      = (((pyStrip l).dropWhile isWs).reverse.dropWhile isWs).reverse := rfl
    _ = ((pyStrip l).reverse.dropWhile isWs).reverse := by rw [h1]
    _ = ((pyStrip l).reverse).reverse := by rw [h2]
    _ = pyStrip l := List.reverse_reverse _

theorem pyStrip_sublist (l : List Char) : (pyStrip l).Sublist l := by
  have h1 : ((l.dropWhile isWs).reverse.dropWhile isWs).Sublist (l.dropWhile isWs).reverse :=
    (List.dropWhile_suffix isWs).sublist
  have h2 : (pyStrip l).Sublist ((l.dropWhile isWs).reverse.reverse) := by
    simpa [pyStrip] using h1.reverse
  rw [List.reverse_reverse] at h2
  exact h2.trans (List.dropWhile_suffix isWs).sublist

theorem goodElems_sublist {l m : List Char} (h : m.Sublist l) (he : goodElems l) :
    goodElems m := fun c hm => he c (h.subset hm)

theorem goodChain_suffix {l m : List Char} (h : m <:+ l) (hc : goodChain l) :
    goodChain m := by
  obtain ⟨t, rfl⟩ := h
  exact (List.chain'_append.mp hc).2.1

theorem goodChain_reverse {l : List Char} (hc : goodChain l) : goodChain l.reverse := by
  refine List.chain'_reverse.mpr (hc.imp ?_)
  intro a b hab hp
  exact hab ⟨hp.2, hp.1⟩

theorem goodChain_pyStrip (l : List Char) (hc : goodChain l) : goodChain (pyStrip l) := by
  have h1 : goodChain (l.dropWhile isWs) := goodChain_suffix (List.dropWhile_suffix isWs) hc
  have h2 : goodChain (l.dropWhile isWs).reverse := goodChain_reverse h1
  have h3 : goodChain ((l.dropWhile isWs).reverse.dropWhile isWs) :=
    goodChain_suffix (List.dropWhile_suffix isWs) h2
  exact goodChain_reverse h3

theorem collapseStrip_idem (l : List Char) :
    collapseStrip (collapseStrip l) = collapseStrip l := by
  have he : goodElems (wsCollapse l) := goodElems_wsCollapseAux l false
  have hc : goodChain (wsCollapse l) := goodChain_wsCollapseAux l false
  have he' : goodElems (collapseStrip l) := goodElems_sublist (pyStrip_sublist _) he
  have hc' : goodChain (collapseStrip l) := goodChain_pyStrip _ hc
  show pyStrip (wsCollapse (collapseStrip l)) = collapseStrip l
  rw [wsCollapse_id _ he' hc']
  exact pyStrip_idem _

/-- Characters of a whitespace-collapsed list come from the input or are
plain spaces. -/
theorem mem_wsCollapseAux :
    ∀ (l : List Char) (b : Bool) (c : Char), c ∈ wsCollapseAux b l → c ∈ l ∨ c = ' ' := by
  intro l
  induction l with
  | nil => intro b c h; exact absurd h (List.not_mem_nil c)
  | cons a rest ih =>
    intro b c h
    by_cases ha : isWs a = true
    · cases b with
      | true =>
        rcases ih true c (by simpa [wsCollapseAux, ha] using h) with h' | h'
        · exact Or.inl (List.mem_cons_of_mem _ h')
        · exact Or.inr h'
      | false =>
        simp only [wsCollapseAux, ha, if_true] at h
        rcases List.mem_cons.mp h with h' | h'
        · exact Or.inr h'
        · rcases ih true c h' with h'' | h''
          · exact Or.inl (List.mem_cons_of_mem _ h'')
          · exact Or.inr h''
    · simp only [wsCollapseAux, ha, Bool.false_eq_true, if_false] at h
      rcases List.mem_cons.mp h with h' | h'
      · exact Or.inl (h' ▸ List.mem_cons_self a rest)
      · rcases ih false c h' with h'' | h''
        · exact Or.inl (List.mem_cons_of_mem _ h'')
        · exact Or.inr h''

theorem mem_collapseStrip {l : List Char} {c : Char} (h : c ∈ collapseStrip l) :
    c ∈ l ∨ c = ' ' :=
  mem_wsCollapseAux l false c ((pyStrip_sublist _).subset h)

/-- Under the pattern-freeness conditions every phase before the
whitespace collapse is the identity, so `strip_html` reduces to
`collapseStrip`. -/
theorem strip_html_eq_collapseStrip (x : List Char)
    (h1 : '&' ∉ x) (h2 : '<' ∉ x)
    (h3 : occursList "http://".data x = false)
    (h4 : occursList "https://".data x = false)
    (h5 : ∀ b ∈ BLACKLIST, occursList b x = false) :
    strip_html x = collapseStrip x := by
  by_cases hx : x.isEmpty
  · rw [List.isEmpty_iff.mp hx]; rfl
  · simp only [strip_html, hx, Bool.false_eq_true, if_false]
    rw [show subImg x = x from subNameTagAux_no_lt _ x h2]
    rw [show subBr x = x from subWsTagAux_no_lt _ _ x h2]
    rw [show subPClose x = x from subWsTagAux_no_lt _ _ x h2]
    rw [show subPOpen x = x from subNameTagAux_no_lt _ x h2]
    rw [show subTag x = x from subTagAux_no_lt x h2]
    rw [pyUnescape_no_amp x h1]
    rw [subUrl_id x h3 h4]
    rw [blacklistScrub_id x h5]

/-! ### Structure of `summarize`'s truncation -/

theorem head_dropWhile_false (p : Char → Bool) :
    ∀ l : List Char, ∀ d, ((l.dropWhile p).head? = some d) → p d = false := by
  intro l
  induction l with
  | nil => intro d h; simp [List.dropWhile] at h
  | cons c rest ih =>
    intro d h
    by_cases hc : p c = true
    · exact ih d (by simpa [List.dropWhile, hc] using h)
    · simp only [List.dropWhile, hc, Bool.false_eq_true, if_false, List.head?_cons,
        Option.some.injEq] at h
      subst h
      simpa using hc

theorem rsplitFirst_isPrefix (l : List Char) : rsplitFirst l <+: l := by
  by_cases h : ' ' ∈ l
  · have h1 : (l.reverse.dropWhile (fun c => !(c = ' '))).tail <:+
        l.reverse.dropWhile (fun c => !(c = ' ')) := List.tail_suffix _
    have h2 : l.reverse.dropWhile (fun c => !(c = ' ')) <:+ l.reverse :=
      List.dropWhile_suffix _
    have h3 := List.reverse_prefix.mpr (h1.trans h2)
    rw [List.reverse_reverse] at h3
    simpa [rsplitFirst, h] using h3
  · simp [rsplitFirst, h]

/-- When the input has a space, `rsplit(" ", 1)[0]` is followed in the
input by a space: the truncation point is a word boundary. -/
theorem rsplitFirst_decomp (l : List Char) (h : ' ' ∈ l) :
    ∃ t, l = rsplitFirst l ++ ' ' :: t := by
  have hne : l.reverse.dropWhile (fun c => !(c = ' ')) ≠ [] := by
    intro he
    have := List.dropWhile_eq_nil_iff.mp he ' ' (by simpa using h)
    simp at this
  obtain ⟨d, t, hdt⟩ := List.exists_cons_of_ne_nil hne
  have hd : d = ' ' := by
    have := head_dropWhile_false (fun c => !(c = ' ')) l.reverse d (by rw [hdt]; rfl)
    simpa using this
  refine ⟨(l.reverse.takeWhile (fun c => !(c = ' '))).reverse, ?_⟩
  have hsplit : l.reverse.takeWhile (fun c => !(c = ' ')) ++
      l.reverse.dropWhile (fun c => !(c = ' ')) = l.reverse :=
    List.takeWhile_append_dropWhile _ _
  have hcut : rsplitFirst l = t.reverse := by
    simp [rsplitFirst, h, hdt]
  have key : rsplitFirst l ++ ' ' :: (l.reverse.takeWhile (fun c => !(c = ' '))).reverse
      = (l.reverse.takeWhile (fun c => !(c = ' ')) ++ (d :: t)).reverse := by
    rw [hcut, hd]
    simp
  rw [key, ← hdt, hsplit, List.reverse_reverse]

theorem pyRstrip_length (cs l : List Char) : (pyRstrip cs l).length ≤ l.length := by
  have h : (l.reverse.dropWhile (fun c => decide (c ∈ cs))).Sublist l.reverse :=
    (List.dropWhile_suffix _).sublist
  have h2 := h.length_le
  simpa [pyRstrip] using h2

/-! ### `calendar.timegm` and timestamp extraction -/

/-- A `time.struct_time` as produced by feedparser for
`published_parsed` / `updated_parsed` (the weekday/yearday/dst fields are
ignored by `calendar.timegm`). -/
structure TmSt where
  year : Nat := 1970
  month : Nat := 1
  day : Nat := 1
  hour : Nat := 0
  minute : Nat := 0
  second : Nat := 0
deriving DecidableEq, Repr

def isLeap (y : Nat) : Bool := y % 4 = 0 && (y % 100 ≠ 0 || y % 400 = 0)

/-- Days before month `m` (1-12) in a non-leap year. -/
def daysBeforeMonth (m : Nat) : Nat :=
  [0, 0, 31, 59, 90, 120, 151, 181, 212, 243, 273, 304, 334].getD m 334

/-- Number of leap years in `[1, y]`. -/
def leapCount (y : Nat) : Nat := y / 4 + y / 400 - y / 100

/-- Days from 1970-01-01 to the start of year `y` (for `y ≥ 1970`). -/
def daysBeforeYear (y : Nat) : Nat :=
  365 * (y - 1970) + (leapCount (y - 1) - leapCount 1969)

/-- Models `calendar.timegm` for years `≥ 1970` (every feed timestamp in
scope): pure calendar arithmetic from a UTC `struct_time` to epoch
seconds.  It never consults the process's local timezone. -/
def timegm (t : TmSt) : Int :=
  ((daysBeforeYear t.year + daysBeforeMonth t.month +
      (if isLeap t.year && decide (2 < t.month) then 1 else 0) + (t.day - 1)) * 86400 +
    t.hour * 3600 + t.minute * 60 + t.second : Nat)

/-! ### Raw feed entries -/

/-- One element of a feedparser `links` list. -/
structure LinkObj where
  rel : Option String := none
  href : Option String := none
deriving DecidableEq, Repr

/-- A raw feed entry: the dictionary keys read anywhere in the two source
files, each `none` when the key is absent (or present with a `None`
value, which every read site treats the same way).
`summary_detail_value` stands for `summary_detail.value`,
`description_detail_value` for `description_detail.value`, and `content`
for the list of the `value` fields of the `content` entries. -/
structure RawEntry where
  title : Option String := none
  titulo : Option String := none
  headline : Option String := none
  link : Option String := none
  url : Option String := none
  href : Option String := none
  source : Option String := none
  fonte : Option String := none
  publisher : Option String := none
  site : Option String := none
  summary : Option String := none
  summary_detail_value : Option String := none
  description : Option String := none
  description_detail_value : Option String := none
  subtitle : Option String := none
  resumo : Option String := none
  content : List (Option String) := []
  links : List LinkObj := []
  published_parsed : Option TmSt := none
  updated_parsed : Option TmSt := none
deriving DecidableEq, Repr

/-- `_entry_time_struct` (`jornal2.py` lines 165-169):
`e.get("published_parsed") or e.get("updated_parsed")` (a `struct_time`
is always truthy). -/
def _entry_time_struct (e : RawEntry) : Option TmSt :=
  e.published_parsed <|> e.updated_parsed

/-- `entry_ts` (`jornal2.py` lines 172-177 and `app_min.py` lines
149-158): `float(calendar.timegm(t)) if t else 0.0`.  The values are
integral, so the float is modelled as `Int`. -/
def entry_ts (e : RawEntry) : Int :=
  match _entry_time_struct e with
  | some t => timegm t
  | none => 0

/-- Timestamp extraction parameterized by the process's local timezone
offset.  `calendar.timegm` is pure calendar arithmetic on the UTC struct
and never consults the local timezone, so the embedding ignores the
offset; the definition exists to state that independence. -/
def entry_ts_at (tzOffset : Int) (e : RawEntry) : Int :=
  let _ := tzOffset
  entry_ts e

/-! ### jornal2 helpers: links, summaries, the economia filter -/

/-- Python truthiness for optional strings: `None` and `""` are falsy. -/
def truthy (o : Option String) : Option String :=
  match o with
  | some "" => none
  | some s => some s
  | none => none

/-- Models `str.lower()` on the Basic-Latin and Latin-1 ranges (the only
characters in the keyword/blacklist tables). -/
def pyLowerChar (c : Char) : Char :=
  if 'A' ≤ c ∧ c ≤ 'Z' then Char.ofNat (c.toNat + 32)
  else if 192 ≤ c.toNat ∧ c.toNat ≤ 222 ∧ c.toNat ≠ 215 then Char.ofNat (c.toNat + 32)
  else c

def pyLower (l : List Char) : List Char := l.map pyLowerChar

/-- `_strip_html` (`jornal2.py` lines 204-207): `_RE_TAG.sub(" ", s)` then
`_RE_SPACE.sub(" ", s).strip()`. -/
def _strip_html (l : List Char) : List Char := collapseStrip (subTag l)

def firstAltHref : List LinkObj → Option String
  | [] => none
  | l :: rest =>
    if l.rel = some "alternate" then
      match truthy l.href with
      | some h => some h
      | none => firstAltHref rest
    else firstAltHref rest

def firstHref : List LinkObj → Option String
  | [] => none
  | l :: rest =>
    match truthy l.href with
    | some h => some h
    | none => firstHref rest

/-- `entry_link` (`jornal2.py` lines 210-241): from the `links` list
prefer the entry with `rel == "alternate"` and a truthy `href`, else the
first with a truthy `href`; else `str(entry.get("link") or "")`.  The
second, attribute-style pass of the source reads the same `links` value
and can never produce a different result. -/
def entry_link (e : RawEntry) : String :=
  match (if e.links.isEmpty then none else firstAltHref e.links <|> firstHref e.links) with
  | some h => h
  | none => (truthy e.link).getD ""

/-- The alternatives of the trailing-boilerplate pattern
`(continue reading|leia mais|saiba mais)\.*$` of `entry_summary`. -/
def TAIL_PHRASES : List (List Char) :=
  ["continue reading".data, "leia mais".data, "saiba mais".data]

/-- Does a tail-phrase followed only by dots reach the end of the list
starting here?  (Case-insensitive, as `re.I`.) -/
def tailMatch (l : List Char) : Bool :=
  TAIL_PHRASES.any fun p =>
    p.isPrefixOf (pyLower l) && ((pyLower l).drop p.length).all (fun c => c = '.')

/-- The substitution `re.sub(r"(continue reading|leia mais|saiba mais)\.*$", "", txt)`:
at the leftmost position where a phrase followed only by dots runs to the
end, everything from there on is removed. -/
def endScrub : List Char → List Char
  | [] => []
  | c :: rest => if tailMatch (c :: rest) then [] else c :: endScrub rest

/-- `entry_summary` (`jornal2.py` lines 244-276). -/
def entry_summary (e : RawEntry) (maxChars : Nat) : List Char :=
  let txt0 := truthy e.summary <|> truthy e.summary_detail_value <|> truthy e.description <|>
      truthy e.description_detail_value <|> truthy e.subtitle
  let txt1 :=
    match txt0 with
    | some s => some s
    | none =>
      match e.content with
      | [] => none
      | v :: _ => truthy v
  match txt1 with
  | none => []
  | some s =>
    let t := pyStrip (endScrub (_strip_html s.data))
    if t.length ≤ maxChars then t
    else
      let cut := rsplitFirst (t.take (maxChars + 1))
      pyRstrip ".,;:—- ".data (if cut.isEmpty then t.take maxChars else cut) ++ ['…']

/-- `_ECO_KEYWORDS` (`jornal2.py` lines 282-296). -/
def _ECO_KEYWORDS : List String :=
  ["economia", "inflação", "ipca", "igp", "pib", "selic", "copom", "banco central",
   "juros", "câmbio", "dólar", "real", "fiscal", "déficit", "superávit", "tesouro",
   "tribut", "imposto", "reforma", "orçamento",
   "bolsa", "b3", "ações", "acionista", "dividend", "ibovespa", "índice",
   "empresa", "lucro", "receita", "balanço", "guidance", "m&a", "fus", "aquisi",
   "economista", "mercado", "invest", "fund", "banco", "credito", "crédito",
   "cripto", "criptomoeda", "bitcoin", "btc", "ethereum", "eth", "blockchain",
   "token", "defi", "stablecoin", "binance", "coinbase"]

/-- `_ECO_BLACKLIST` (`jornal2.py` lines 299-304). -/
def _ECO_BLACKLIST : List String :=
  ["bbb", "big brother", "carnaval", "rio open", "anitta", "novela",
   "campeã", "campeao", "eliminado", "paredão", "paredao",
   "futebol", "flamengo", "corinthians", "palmeiras", "santos", "são paulo",
   "oscar", "grammy"]

/-- `_match_economia` (`jornal2.py` lines 307-322): lowercase
`f"{title} {summary}"`; any blacklisted term rejects first
(short-circuit), then any allow keyword accepts. -/
def _match_economia (title summary : List Char) : Bool :=
  let blob := pyLower title ++ ' ' :: pyLower summary
  if _ECO_BLACKLIST.any (fun b => occursList b.data blob) then false
  else if _ECO_KEYWORDS.any (fun k => occursList k.data blob) then true
  else false

/-! ### The topic collector -/

/-- A parsed feed, reduced to what the collector reads. -/
structure Feed where
  entries : List RawEntry := []
deriving Repr

/-- A collected item: the raw entry plus the `jc_*` extras that
`_coletar_de_feeds` stores into the entry dict. -/
structure CItem where
  raw : RawEntry
  jc_link : String
  jc_ts : Int
  jc_hora : String
  jc_summary : List Char
deriving DecidableEq, Repr

/-- The sort key `float(x.get("jc_ts") or entry_ts(x) or 0.0)`, with
Python's zero-is-falsy `or` chain. -/
def sortKey (x : CItem) : Int :=
  if x.jc_ts ≠ 0 then x.jc_ts else if entry_ts x.raw ≠ 0 then entry_ts x.raw else 0

/-- Python's `list.sort(key=k, reverse=True)` is a stable descending
sort; embedded as a stable insertion sort. -/
def sortDesc {α : Type} (key : α → Int) (l : List α) : List α :=
  l.insertionSort (fun a b => key b ≤ key a)

/-- One iteration of the inner entry loop of `_coletar_de_feeds`
(`jornal2.py` lines 342-391), acting on the accumulator
`(itens, vistos)`.  `horaFn` stands for `formatar_hora_noticia`, whose
output depends on the wall clock and timezone environment. -/
def collectStep (horaFn : RawEntry → String) (tema : String)
    (acc : List CItem × List String) (entry : RawEntry) : List CItem × List String :=
  let link := entry_link entry
  if link = "" then acc
  else
    let it : CItem :=
      { raw := entry, jc_link := link, jc_ts := entry_ts entry,
        jc_hora := horaFn entry, jc_summary := entry_summary entry 280 }
    if tema = "🌍 Economia" &&
        !(_match_economia (entry.title.getD "").data (entry_summary entry 280)) then acc
    else if link ∈ acc.2 then acc
    else (acc.1 ++ [it], acc.2 ++ [link])

/-- The two nested loops of `_coletar_de_feeds` (the `stats_*` maps are
diagnostic only and carry no behaviour). -/
def coletarItens (fetch : String → Feed) (horaFn : RawEntry → String) (tema : String)
    (urls : List String) : List CItem :=
  (urls.foldl (fun acc url => (fetch url).entries.foldl (collectStep horaFn tema) acc)
    ([], [])).1

/-- `_coletar_de_feeds` (`jornal2.py` lines 328-402): collect, sort by
`jc_ts` descending (stable), and apply `itens[:limite_total] if
limite_total else itens` (a limit of `0` is falsy and means no
truncation, as in Python). -/
def _coletar_de_feeds (fetch : String → Feed) (horaFn : RawEntry → String) (tema : String)
    (urls : List String) (limite_total : Option Nat) : List CItem :=
  let itens := sortDesc sortKey (coletarItens fetch horaFn tema urls)
  match limite_total with
  | some l => if l ≠ 0 then itens.take l else itens
  | none => itens

/-- `FEEDS_BY_TEMA` (`jornal2.py` lines 89-125). -/
def FEEDS_BY_TEMA : List (String × List String) :=
  [("⚽ Esporte",
    ["https://rss.uol.com.br/feed/esporte.xml",
     "https://www.espn.com.br/espn/rss/news",
     "https://feeds.bbci.co.uk/sport/rss.xml"]),
   ("🎭 Cultura",
    ["https://g1.globo.com/dynamo/pop-arte/rss2.xml",
     "https://www1.folha.uol.com.br/ilustrada/rss091.xml"]),
   ("🏛️ Política Brasil",
    ["https://g1.globo.com/dynamo/politica/rss2.xml",
     "https://feeds.folha.uol.com.br/poder/rss091.xml"]),
   ("🌍 Economia",
    ["https://www.infomoney.com.br/feed/",
     "https://exame.com/feed/",
     "https://g1.globo.com/rss/g1/economia",
     "https://feeds.bbci.co.uk/news/business/rss.xml",
     "https://br.investing.com/rss/news_301.rss"]),
   ("📰 Últimas",
    ["https://g1.globo.com/rss/g1/",
     "https://rss.uol.com.br/feed/noticias.xml",
     "https://www.infomoney.com.br/feed/",
     "https://exame.com/feed/",
     "https://tecnoblog.net/feed/"])]

/-- `LIMITES_PADRAO` (`jornal2.py` lines 127-133). -/
def LIMITES_PADRAO : List (String × Nat) :=
  [("⚽ Esporte", 9), ("🎭 Cultura", 9), ("🏛️ Política Brasil", 9),
   ("🌍 Economia", 20), ("📰 Últimas", 100)]

/-! ### app_min normalization -/

/-- `_get` (`app_min.py` lines 135-143), specialised to string-valued
keys: the first value not in `(None, "", [], {})`, else the default. -/
def _get (vals : List (Option String)) (default : String) : String :=
  match vals with
  | [] => default
  | v :: rest =>
    match truthy v with
    | some s => s
    | none => _get rest default

/-- `str()` of a feedparser content list, reached when `_get` falls
through `summary` and `description` to a non-empty `content`.  The exact
rendering is irrelevant to every claim; modelled as the concatenation of
the content values. -/
def contentStr (e : RawEntry) : String :=
  String.join (e.content.map (fun v => v.getD ""))

/-- The `summary/description/content/resumo` alias chain of
`normalize_entry` (a non-empty `content` list is truthy and wins over
`resumo`). -/
def resumoRaw (e : RawEntry) : String :=
  match truthy e.summary with
  | some s => s
  | none =>
    match truthy e.description with
    | some s => s
    | none => if !e.content.isEmpty then contentStr e else (truthy e.resumo).getD ""

/-- A normalized entry as built by `normalize_entry`; `ts = none` models
a dict whose `"ts"` key has been popped. -/
structure NEntry where
  titulo : String
  link : String
  fonte : String
  resumo : String
  ts : Option Int
  hora : String
deriving DecidableEq, Repr

/-- `normalize_entry` (`app_min.py` lines 183-196).  `horaFn` stands for
`formatar_hora_noticia`, whose output depends on the wall clock and
timezone environment. -/
def normalize_entry (horaFn : RawEntry → String) (e : RawEntry) : NEntry :=
  let titulo_raw := _get [e.title, e.titulo, e.headline] "(sem título)"
  let link := _get [e.link, e.url, e.href] ""
  let fonte := _get [e.source, e.fonte, e.publisher, e.site] ""
  let t0 := String.mk (summarize titulo_raw.data 140)
  { titulo := if t0 = "" then "(sem título)" else t0
    link := link
    fonte := String.mk (strip_html fonte.data)
    resumo := String.mk (summarize (resumoRaw e).data 320)
    ts := some (entry_ts e)
    hora := horaFn e }

/-- The loop of `normalize_list` (`app_min.py` lines 199-211): skip an
entry whose `(titulo, link)` pair was seen, append otherwise, and break
once `limit` entries are kept. -/
def normalize_listAux (horaFn : RawEntry → String) (limit : Nat) :
    List (String × String) → List NEntry → List RawEntry → List NEntry
  | _, out, [] => out
  | seen, out, e :: rest =>
    let n := normalize_entry horaFn e
    let key := (n.titulo, n.link)
    if key ∈ seen then normalize_listAux horaFn limit seen out rest
    else if limit ≤ out.length + 1 then out ++ [n]
    else normalize_listAux horaFn limit (seen ++ [key]) (out ++ [n]) rest

def normalize_list (horaFn : RawEntry → String) (entries : List RawEntry) (limit : Nat) :
    List NEntry :=
  normalize_listAux horaFn limit [] [] entries

/-! ### The section read operation -/

def TEMAS : List String := FEEDS_BY_TEMA.map Prod.fst

/-- `_tema_geral_label` (`app_min.py` lines 245-249): the first candidate
that is a key of `FEEDS_BY_TEMA`. -/
def GERAL_LABEL : Option String :=
  (["📰 Últimas", "📰 Ultimas", "📰 Gerais", "📰 Geral"] : List String).find?
    (fun c => TEMAS.contains c)

/-- `display_label` (`app_min.py` lines 228-238). -/
def display_label (tema : String) : String :=
  if tema = "🌍 Economia" then "🌍 Economia"
  else if tema = "🌍 Geopolítica" then "🌍 Economia"
  else tema

/-- `list(buckets.get(k, []) or [])`. -/
def bucketsGet (buckets : List (String × List NEntry)) (k : String) : List NEntry :=
  match buckets.lookup k with
  | some v => v
  | none => []

/-- The `for k in TEMAS` fallback of `get_section_cached`: `entries` ends
as the first non-empty bucket, or the last inspected value. -/
def fallbackEntries (buckets : List (String × List NEntry)) : List String → List NEntry
  | [] => []
  | [k] => bucketsGet buckets k
  | k :: k2 :: rest =>
    let e := bucketsGet buckets k
    if e ≠ [] then e else fallbackEntries buckets (k2 :: rest)

/-- The sort key `float(x.get("ts", 0.0))`. -/
def nKey (n : NEntry) : Int := n.ts.getD 0

/-- `n.pop("ts", None)` on an entry dict. -/
def popTs (n : NEntry) : NEntry := { n with ts := none }

/-- `get_section_cached` (`app_min.py` lines 477-501), parameterized by
the buckets that `get_buckets_cached` returned: resolve the topic (or the
general fallback), re-sort by `ts` descending, truncate to `limit`, and
pop the `ts` key from every returned entry. -/
def get_section_cached (buckets : List (String × List NEntry)) (tema_label : Option String)
    (limit : Nat) : String × List NEntry :=
  match tema_label with
  | none =>
    let entries :=
      match GERAL_LABEL with
      | some g =>
        if bucketsGet buckets g ≠ [] then bucketsGet buckets g
        else fallbackEntries buckets TEMAS
      | none => fallbackEntries buckets TEMAS
    ("📰 Geral", ((sortDesc nKey entries).take limit).map popTs)
  | some tema =>
    (display_label tema, ((sortDesc nKey (bucketsGet buckets tema)).take limit).map popTs)

/-! ### The JSON section cache: age, read path, refresh guard, writes -/

/-- A parsed snapshot file `{"updated_at": ..., "buckets": ...}`;
timestamps in `Int` seconds. -/
structure SnapData where
  updated_at : Option Int := none
  buckets : List (String × List NEntry) := []

/-- `_cache_age_seconds` (`app_min.py` lines 397-408): a huge sentinel
(`1e18`) when the field is missing. -/
def _cache_age_seconds (now : Int) (updated_at : Option Int) : Int :=
  match updated_at with
  | none => 10 ^ 18
  | some t => now - t

/-- `get_buckets_cached` (`app_min.py` lines 458-474), parameterized by
the snapshot read under the cache lock and by the snapshot a synchronous
cold rebuild would produce and re-read.  The boolean records whether a
background-refresh thread was spawned. -/
def get_buckets_cached (ttl : Int) (now : Int) (stored rebuilt : SnapData) :
    (List (String × List NEntry) × Option Int) × Bool :=
  if stored.updated_at = none ∨ stored.buckets = [] then
    ((rebuilt.buckets, rebuilt.updated_at), false)
  else if _cache_age_seconds now stored.updated_at > ttl then
    ((stored.buckets, stored.updated_at), true)
  else
    ((stored.buckets, stored.updated_at), false)

/-- The mutual-exclusion state of `refresh_cache_background`
(`app_min.py` lines 442-455): the non-blocking `_REFRESH_LOCK`, the
`_REFRESHING` flag, and the number of rebuilds currently running. -/
structure RefreshSys where
  locked : Bool
  refreshing : Bool
  runs : Nat
deriving DecidableEq, Repr

def initRefreshSys : RefreshSys := { locked := false, refreshing := false, runs := 0 }

inductive REv where
  | tryRefresh : REv
  | finishRefresh : REv
deriving DecidableEq, Repr

/-- One atomic event against the refresh guard.  `tryRefresh` is a call
to `refresh_cache_background`: `_REFRESH_LOCK.acquire(blocking=False)`
simply returns (`false` = request dropped) when the lock is held; a
successful acquire re-checks `_REFRESHING` (returning if set, releasing
in the `finally`), then sets the flag and starts the rebuild.
`finishRefresh` is the epilogue of the running rebuild: clear the flag,
release the lock. -/
def rstep (s : RefreshSys) : REv → RefreshSys × Bool
  | .tryRefresh =>
    if s.locked then (s, false)
    else if s.refreshing then (s, false)
    else ({ locked := true, refreshing := true, runs := s.runs + 1 }, true)
  | .finishRefresh =>
    if s.runs = 0 then (s, false)
    else ({ locked := false, refreshing := false, runs := s.runs - 1 }, true)

def runEvents (s : RefreshSys) : List REv → RefreshSys
  | [] => s
  | e :: rest => runEvents (rstep s e).1 rest

/-- Number of `tryRefresh` events of the trace whose rebuild actually
started. -/
def countStarted (s : RefreshSys) : List REv → Nat
  | [] => 0
  | e :: rest =>
    (match e, (rstep s e).2 with
     | .tryRefresh, true => 1
     | _, _ => 0) + countStarted (rstep s e).1 rest

/-- The observable filesystem around `_write_cache_file`
(`app_min.py` lines 381-394): the snapshot file and the temporary file,
contents abstracted as lists of serialized chunks. -/
structure FS where
  cacheFile : Option (List String) := none
  tmpFile : Option (List String) := none
deriving DecidableEq, Repr

/-- The sequence of filesystem states during `_write_cache_file fs data`:
`json.dump` fills the temporary file incrementally; `failAt = some k`
raises after `k` chunks (`k ≥ data.length` models a failing
`os.replace`), after which the except-branch removes the temporary file;
on success `os.replace(tmp, CACHE_FILE)` installs the data in one step. -/
def writeStates (fs : FS) (data : List String) (failAt : Option Nat) : List FS :=
  match failAt with
  | some k =>
    fs :: (List.range (min k data.length + 1)).map
        (fun i => { fs with tmpFile := some (data.take i) }) ++
      [{ fs with tmpFile := none }]
  | none =>
    fs :: (List.range (data.length + 1)).map
        (fun i => { fs with tmpFile := some (data.take i) }) ++
      [{ cacheFile := some data, tmpFile := none }]

/-- The final filesystem state of `_write_cache_file`. -/
def writeResult (fs : FS) (data : List String) (failAt : Option Nat) : FS :=
  match failAt with
  | some _ => { fs with tmpFile := none }
  | none => { cacheFile := some data, tmpFile := none }

/-! ### The per-URL feed cache -/

/-- `_FEED_CACHE[url] = (ts, parsed_dict)`; a new binding is consed on
and `List.lookup` returns the most recent one, matching dict
assignment. -/
def FeedCache : Type := List (String × (Int × Feed))

def _cache_expired (ttl : Int) (now : Int) (ts : Int) : Bool := now - ts > ttl

/-- `carregar_feed` (`jornal2.py` lines 49-83), parameterized by the
outcome of the guarded fetch-and-parse block: `.ok f` when the GET, the
status check and the parse produced `f` (including the feedparser-direct
fallback for non-XML bodies), `.error ()` when any of those steps raised.
Exceptions stop at this boundary: the function always returns a feed,
and any failure is cached as an empty-entries feed stamped `now`. -/
def carregar_feed (ttl : Int) (cache : FeedCache) (url : String) (now : Int)
    (outcome : Except Unit Feed) : Feed × FeedCache :=
  let fetched :=
    match outcome with
    | .ok f => f
    | .error _ => { entries := [] }
  match List.lookup url cache with
  | some (ts, f) =>
    if !(_cache_expired ttl now ts) then (f, cache)
    else (fetched, (url, (now, fetched)) :: cache)
  | none => (fetched, (url, (now, fetched)) :: cache)

/-! ### Properties of the stable descending sort -/

theorem sortDesc_perm {α : Type} (key : α → Int) (l : List α) :
    (sortDesc key l).Perm l :=
  List.perm_insertionSort _ l

theorem sortDesc_pairwise {α : Type} (key : α → Int) (l : List α) :
    (sortDesc key l).Pairwise (fun a b => key b ≤ key a) := by
  haveI : IsTotal α (fun a b => key b ≤ key a) := ⟨fun a b => le_total (key b) (key a)⟩
  haveI : IsTrans α (fun a b => key b ≤ key a) :=
    ⟨fun _ _ _ hab hbc => le_trans hbc hab⟩
  exact List.sorted_insertionSort _ l

/-- Stability: a pair in key-respecting order stays a sublist of the
sorted output; with equal keys this says discovery order is preserved. -/
theorem sortDesc_stable_pair {α : Type} (key : α → Int) {a b : α} {l : List α}
    (hab : key b ≤ key a) (h : [a, b].Sublist l) :
    [a, b].Sublist (sortDesc key l) :=
  List.pair_sublist_insertionSort hab h

/-! ### Claim theorems -/

/-- Claim C10: every entry returned by `get_section_cached` has had its
`ts` key popped: the public section result never exposes the timestamp
field, even though normalized entries are built and cached with it. -/
theorem get_section_cached_pops_ts (buckets : List (String × List NEntry))
    (tema_label : Option String) (limit : Nat) :
    ∀ n ∈ (get_section_cached buckets tema_label limit).2, n.ts = none := by
  intro n hn
  cases tema_label with
  | none =>
    simp only [get_section_cached, List.mem_map] at hn
    obtain ⟨m, _, rfl⟩ := hn
    rfl
  | some tema =>
    simp only [get_section_cached, List.mem_map] at hn
    obtain ⟨m, _, rfl⟩ := hn
    rfl

/-- Claim C10 witness. -/
theorem get_section_cached_pops_ts_witness :
    ({ titulo := "t", link := "l", fonte := "f", resumo := "r", ts := none,
       hora := "h" } : NEntry) ∈
      (get_section_cached
        [("⚽ Esporte", [{ titulo := "t", link := "l", fonte := "f", resumo := "r",
                           ts := some 5, hora := "h" }])]
        (some "⚽ Esporte") 5).2 ∧
    ({ titulo := "t", link := "l", fonte := "f", resumo := "r", ts := none,
       hora := "h" } : NEntry).ts = none :=
  ⟨by decide, get_section_cached_pops_ts
    [("⚽ Esporte", [{ titulo := "t", link := "l", fonte := "f", resumo := "r",
                       ts := some 5, hora := "h" }])]
    (some "⚽ Esporte") 5 _ (by decide)⟩

/-- The invariant of the refresh guard: at most one rebuild runs, the
lock is held exactly while one runs, and the `_REFRESHING` flag mirrors
the lock. -/
def RInv (s : RefreshSys) : Prop :=
  s.runs ≤ 1 ∧ (s.locked = true ↔ s.runs = 1) ∧ s.refreshing = s.locked

theorem rstep_inv {s : RefreshSys} (e : REv) (h : RInv s) : RInv (rstep s e).1 := by
  obtain ⟨h1, h2, h3⟩ := h
  cases e with
  | tryRefresh =>
    by_cases hl : s.locked = true
    · simpa [rstep, hl] using ⟨h1, h2, h3⟩
    · have hl' : s.locked = false := by simpa using hl
      have hr : s.refreshing = false := by rw [h3, hl']
      have hruns : s.runs = 0 := by
        rcases Nat.lt_or_ge s.runs 1 with h | h
        · omega
        · exact absurd (h2.mpr (by omega)) (by simp [hl'])
      simp [rstep, hl', hr, RInv, hruns]
  | finishRefresh =>
    by_cases h0 : s.runs = 0
    · simpa [rstep, h0] using ⟨h1, h2, h3⟩
    · have hs : s.runs = 1 := by omega
      simp [rstep, h0, RInv, hs]

theorem runEvents_inv (evs : List REv) : ∀ s : RefreshSys, RInv s → RInv (runEvents s evs) := by
  induction evs with
  | nil => intro s h; exact h
  | cons e rest ih => intro s h; exact ih _ (rstep_inv e h)

theorem countStarted_locked (n : Nat) :
    ∀ s : RefreshSys, s.locked = true →
      countStarted s (List.replicate n .tryRefresh) = 0 := by
  induction n with
  | zero => intro s _; rfl
  | succ m ih =>
    intro s hl
    have hstep : rstep s .tryRefresh = (s, false) := by simp [rstep, hl]
    simp [List.replicate_succ, countStarted, hstep, ih s hl]

/-- Claim C1: a warm-stale read returns the existing snapshot data
immediately and spawns a background rebuild; the non-blocking guard
drops (does not queue) a rebuild request while one is in flight, at most
one rebuild ever runs concurrently, and of `n ≥ 1` concurrent stale
rebuild requests exactly one proceeds. -/
theorem stale_read_single_refresh :
    (∀ (ttl now t : Int) (stored rebuilt : SnapData), stored.updated_at = some t →
        stored.buckets ≠ [] → now - t > ttl →
        get_buckets_cached ttl now stored rebuilt = ((stored.buckets, some t), true)) ∧
    (∀ s : RefreshSys, s.locked = true → rstep s .tryRefresh = (s, false)) ∧
    (∀ evs : List REv, (runEvents initRefreshSys evs).runs ≤ 1) ∧
    (∀ n : Nat, 1 ≤ n →
        countStarted initRefreshSys (List.replicate n .tryRefresh) = 1) := by
  refine ⟨?_, ?_, ?_, ?_⟩
  · intro ttl now t stored rebuilt hu hb hstale
    simp [get_buckets_cached, hu, hb, _cache_age_seconds, hstale]
  · intro s hl
    have hstep : rstep s .tryRefresh =
        if s.locked then (s, false)
        else if s.refreshing then (s, false)
        else ({ locked := true, refreshing := true, runs := s.runs + 1 }, true) := rfl
    rw [hstep, if_pos hl]
  · intro evs
    exact (runEvents_inv evs initRefreshSys (by simp [RInv, initRefreshSys])).1
  · intro n hn
    obtain ⟨m, rfl⟩ := Nat.exists_eq_add_of_le hn
    have hstep : rstep initRefreshSys .tryRefresh =
        ({ locked := true, refreshing := true, runs := 1 }, true) := by decide
    have hrep : List.replicate (1 + m) REv.tryRefresh
        = .tryRefresh :: List.replicate m .tryRefresh := by
      rw [Nat.add_comm, List.replicate_succ]
    rw [hrep]
    simp [countStarted, hstep,
      countStarted_locked m { locked := true, refreshing := true, runs := 1 } rfl]

/-- Claim C1 witness. -/
theorem stale_read_single_refresh_witness :
    (({ updated_at := some 100, buckets := [("⚽ Esporte", [])] } : SnapData).updated_at
        = some 100 ∧
      ({ updated_at := some 100, buckets := [("⚽ Esporte", [])] } : SnapData).buckets ≠ [] ∧
      (500 : Int) - 100 > 300 ∧
      get_buckets_cached 300 500 { updated_at := some 100, buckets := [("⚽ Esporte", [])] } {}
        = (([("⚽ Esporte", [])], some 100), true)) ∧
    countStarted initRefreshSys (List.replicate 3 .tryRefresh) = 1 := by
  refine ⟨⟨rfl, by decide, by decide, ?_⟩, stale_read_single_refresh.2.2.2 3 (by decide)⟩
  exact stale_read_single_refresh.1 300 500 100 _ _ rfl (by decide) (by decide)

/-- Claim C2: during a snapshot write the cache file only ever holds the
old complete snapshot or the new complete snapshot (the partial data
lives in the temporary file); a failed write leaves the previously
persisted snapshot unchanged and removes the temporary file; a
successful write installs the new data. -/
theorem write_cache_atomic :
    (∀ (fs : FS) (data : List String) (failAt : Option Nat),
        ∀ s ∈ writeStates fs data failAt,
          s.cacheFile = fs.cacheFile ∨ s.cacheFile = some data) ∧
    (∀ (fs : FS) (data : List String) (k : Nat),
        (writeResult fs data (some k)).cacheFile = fs.cacheFile ∧
        (writeResult fs data (some k)).tmpFile = none ∧
        (writeStates fs data (some k)).getLast? = some (writeResult fs data (some k))) ∧
    (∀ (fs : FS) (data : List String),
        writeResult fs data none = { cacheFile := some data, tmpFile := none } ∧
        (writeStates fs data none).getLast? = some (writeResult fs data none)) := by
  refine ⟨?_, ?_, ?_⟩
  · intro fs data failAt s hs
    cases failAt with
    | some k =>
      simp only [writeStates, List.mem_cons, List.mem_append, List.mem_map,
        List.mem_range, List.mem_singleton, List.not_mem_nil, or_false] at hs
      rcases hs with (rfl | ⟨i, _, rfl⟩) | rfl <;> simp
    | none =>
      simp only [writeStates, List.mem_cons, List.mem_append, List.mem_map,
        List.mem_range, List.mem_singleton, List.not_mem_nil, or_false] at hs
      rcases hs with (rfl | ⟨i, _, rfl⟩) | rfl <;> simp
  · intro fs data k
    refine ⟨rfl, rfl, ?_⟩
    show (fs :: ((List.range (min k data.length + 1)).map _ ++ _)).getLast? = _
    rw [← List.cons_append, List.getLast?_concat]
    rfl
  · intro fs data
    refine ⟨rfl, ?_⟩
    show (fs :: ((List.range (data.length + 1)).map _ ++ _)).getLast? = _
    rw [← List.cons_append, List.getLast?_concat]
    rfl

/-- Claim C2 witness. -/
theorem write_cache_atomic_witness :
    (∀ s ∈ writeStates { cacheFile := some ["old"] } ["a", "b"] (some 1),
        s.cacheFile = ({ cacheFile := some ["old"] } : FS).cacheFile ∨
          s.cacheFile = some ["a", "b"]) ∧
    (writeResult { cacheFile := some ["old"] } ["a", "b"] (some 1)).cacheFile
      = ({ cacheFile := some ["old"] } : FS).cacheFile :=
  ⟨write_cache_atomic.1 _ _ _, (write_cache_atomic.2.1 { cacheFile := some ["old"] } ["a", "b"] 1).1⟩

/-- Claim C3: `carregar_feed` never raises (the embedding is total in the
fetch outcome); on a cache miss or an expired cache entry a failing
fetch returns the empty-entries feed and caches it stamped at the
failure time; a fresh cache entry is served without fetching; and the
cached empty result is served for the same TTL window as a successful
result, both governed by `_cache_expired`. -/
theorem carregar_feed_failure_behaviour :
    (∀ (ttl : Int) (cache : FeedCache) (url : String) (now : Int),
        List.lookup url cache = none →
        carregar_feed ttl cache url now (.error ())
          = ({ entries := [] }, (url, (now, { entries := [] })) :: cache)) ∧
    (∀ (ttl : Int) (cache : FeedCache) (url : String) (now ts : Int) (f : Feed),
        List.lookup url cache = some (ts, f) → _cache_expired ttl now ts = true →
        carregar_feed ttl cache url now (.error ())
          = ({ entries := [] }, (url, (now, { entries := [] })) :: cache)) ∧
    (∀ (ttl : Int) (cache : FeedCache) (url : String) (now ts : Int) (f : Feed)
        (outcome : Except Unit Feed),
        List.lookup url cache = some (ts, f) → _cache_expired ttl now ts = false →
        carregar_feed ttl cache url now outcome = (f, cache)) ∧
    (∀ (ttl : Int) (cache : FeedCache) (url : String) (now now' : Int)
        (outcome : Except Unit Feed),
        _cache_expired ttl now' now = false →
        carregar_feed ttl ((url, (now, { entries := [] })) :: cache) url now' outcome
          = ({ entries := [] }, (url, (now, { entries := [] })) :: cache)) ∧
    (∀ (ttl : Int) (cache : FeedCache) (url : String) (now : Int) (f : Feed),
        List.lookup url cache = none →
        carregar_feed ttl cache url now (.ok f) = (f, (url, (now, f)) :: cache)) := by
  refine ⟨?_, ?_, ?_, ?_, ?_⟩
  · intro ttl cache url now hmiss
    simp [carregar_feed, hmiss]
  · intro ttl cache url now ts f hhit hexp
    simp [carregar_feed, hhit, hexp]
  · intro ttl cache url now ts f outcome hhit hexp
    simp [carregar_feed, hhit, hexp]
  · intro ttl cache url now now' outcome hexp
    simp [carregar_feed, hexp]
  · intro ttl cache url now f hmiss
    simp [carregar_feed, hmiss]

/-- Claim C3 witness. -/
theorem carregar_feed_failure_behaviour_witness :
    carregar_feed 180 [] "u" 1000 (.error ())
        = ({ entries := [] }, [("u", (1000, { entries := [] }))]) ∧
    carregar_feed 180 [("u", (1000, { entries := [] }))] "u" 1100 (.ok { entries := [] })
        = ({ entries := [] }, [("u", (1000, { entries := [] }))]) :=
  ⟨carregar_feed_failure_behaviour.1 180 [] "u" 1000 rfl,
   carregar_feed_failure_behaviour.2.2.2.1 180 [] "u" 1000 1100 (.ok { entries := [] })
     (by decide)⟩

/-- Claim C6: `entry_ts` reads `published_parsed`, else `updated_parsed`,
converts the UTC struct with `calendar.timegm` — pure calendar
arithmetic, independent of the local timezone — yielding exactly the UTC
epoch value (2024-01-01T00:00:00 UTC ↦ 1704067200), and `0` when no time
field is present. -/
theorem entry_ts_utc_correct :
    (entry_ts { published_parsed := some ({ year := 2024 } : TmSt) } = 1704067200) ∧
    (∀ (tz : Int) (e : RawEntry), entry_ts_at tz e = entry_ts e) ∧
    (∀ e : RawEntry, e.published_parsed = none → e.updated_parsed = none →
        entry_ts e = 0) ∧
    (∀ (e : RawEntry) (t : TmSt), e.published_parsed = some t →
        entry_ts e = timegm t) ∧
    (∀ (e : RawEntry) (t : TmSt), e.published_parsed = none →
        e.updated_parsed = some t → entry_ts e = timegm t) := by
  refine ⟨by decide, fun _ _ => rfl, ?_, ?_, ?_⟩
  · intro e h1 h2
    simp [entry_ts, _entry_time_struct, h1, h2]
  · intro e t h1
    simp [entry_ts, _entry_time_struct, h1]
  · intro e t h1 h2
    simp [entry_ts, _entry_time_struct, h1, h2]

/-- Claim C6 witness. -/
theorem entry_ts_utc_correct_witness :
    entry_ts_at 10800 { updated_parsed := some ({ year := 2024 } : TmSt) }
        = entry_ts { updated_parsed := some ({ year := 2024 } : TmSt) } ∧
    entry_ts ({} : RawEntry) = 0 ∧
    entry_ts { updated_parsed := some ({ year := 2024 } : TmSt) }
        = timegm ({ year := 2024 } : TmSt) :=
  ⟨entry_ts_utc_correct.2.1 10800 _, entry_ts_utc_correct.2.2.1 {} rfl rfl,
   entry_ts_utc_correct.2.2.2.2 _ ({ year := 2024 } : TmSt) rfl rfl⟩

/-- Claim C9: the economia filter admits an entry iff its lowercased
title-plus-summary blob contains no blacklisted term (checked first,
rejection short-circuits) and at least one allow keyword; an entry
containing a bitcoin mention and no blacklisted term is kept; one
containing a flamengo mention is dropped whatever else it contains; and
for every other topic the collector admits entries without this
filter. -/
theorem economia_filter_correct :
    (∀ t s : List Char, _match_economia t s = true ↔
        ((∀ b ∈ _ECO_BLACKLIST,
            occursList b.data (pyLower t ++ ' ' :: pyLower s) = false) ∧
         (∃ k ∈ _ECO_KEYWORDS,
            occursList k.data (pyLower t ++ ' ' :: pyLower s) = true))) ∧
    (∀ t s : List Char,
        (∀ b ∈ _ECO_BLACKLIST,
            occursList b.data (pyLower t ++ ' ' :: pyLower s) = false) →
        occursList "bitcoin".data (pyLower t ++ ' ' :: pyLower s) = true →
        _match_economia t s = true) ∧
    (∀ t s : List Char,
        occursList "flamengo".data (pyLower t ++ ' ' :: pyLower s) = true →
        _match_economia t s = false) ∧
    (∀ (horaFn : RawEntry → String) (tema : String) (acc : List CItem × List String)
        (e : RawEntry),
        tema ≠ "🌍 Economia" → entry_link e ≠ "" → entry_link e ∉ acc.2 →
        collectStep horaFn tema acc e
          = (acc.1 ++ [{ raw := e, jc_link := entry_link e, jc_ts := entry_ts e,
                         jc_hora := horaFn e, jc_summary := entry_summary e 280 }],
             acc.2 ++ [entry_link e])) := by
  have hiff : ∀ t s : List Char, _match_economia t s = true ↔
      ((∀ b ∈ _ECO_BLACKLIST,
          occursList b.data (pyLower t ++ ' ' :: pyLower s) = false) ∧
       (∃ k ∈ _ECO_KEYWORDS,
          occursList k.data (pyLower t ++ ' ' :: pyLower s) = true)) := by
    intro t s
    by_cases hB : _ECO_BLACKLIST.any
        (fun b => occursList b.data (pyLower t ++ ' ' :: pyLower s)) = true
    · constructor
      · intro h
        exact absurd h (by simp [_match_economia, hB])
      · rintro ⟨hall, -⟩
        obtain ⟨b, hb, hocc⟩ := List.any_eq_true.mp hB
        rw [hall b hb] at hocc
        exact Bool.noConfusion hocc
    · have hB' : _ECO_BLACKLIST.any
          (fun b => occursList b.data (pyLower t ++ ' ' :: pyLower s)) = false := by
        simpa using hB
      have hall : ∀ b ∈ _ECO_BLACKLIST,
          occursList b.data (pyLower t ++ ' ' :: pyLower s) = false := by
        intro b hb
        have := List.any_eq_false.mp hB' b hb
        simpa using this
      constructor
      · intro h
        refine ⟨hall, ?_⟩
        have hK : _ECO_KEYWORDS.any
            (fun k => occursList k.data (pyLower t ++ ' ' :: pyLower s)) = true := by
          by_contra hk
          exact absurd h (by simp [_match_economia, hB', hk])
        exact List.any_eq_true.mp hK
      · rintro ⟨-, hk⟩
        have hK : _ECO_KEYWORDS.any
            (fun k => occursList k.data (pyLower t ++ ' ' :: pyLower s)) = true :=
          List.any_eq_true.mpr hk
        simp [_match_economia, hB', hK]
  refine ⟨hiff, ?_, ?_, ?_⟩
  · intro t s hall hbit
    exact (hiff t s).mpr ⟨hall, "bitcoin", by decide, hbit⟩
  · intro t s hfla
    have hB : _ECO_BLACKLIST.any
        (fun b => occursList b.data (pyLower t ++ ' ' :: pyLower s)) = true :=
      List.any_eq_true.mpr ⟨"flamengo", by decide, hfla⟩
    simp [_match_economia, hB]
  · intro horaFn tema acc e htema hlink hmem
    simp [collectStep, hlink, htema, hmem]

/-- Claim C9 witness. -/
theorem economia_filter_correct_witness :
    _match_economia "Bitcoin atinge novo recorde".data "".data = true ∧
    _match_economia "Flamengo fecha acordo".data "mercado aquece".data = false :=
  ⟨economia_filter_correct.2.1 _ _ (by decide) (by decide),
   economia_filter_correct.2.2.1 _ _ (by decide)⟩

/-- Claim C7 (amended): `strip_html` is idempotent on input free of HTML
entities (`&`), tags (`<`), `http(s)://` URLs and blacklisted phrases,
and whose whitespace-collapsed form is still free of URLs and
blacklisted phrases; in general a second application can remove more
(entity unescaping and phrase replacement can re-create removable
content — see the counterexample). -/
theorem strip_html_idempotent_on (x : List Char)
    (h1 : '&' ∉ x) (h2 : '<' ∉ x)
    (h3 : occursList "http://".data x = false)
    (h4 : occursList "https://".data x = false)
    (h5 : ∀ b ∈ BLACKLIST, occursList b x = false)
    (h6 : occursList "http://".data (collapseStrip x) = false)
    (h7 : occursList "https://".data (collapseStrip x) = false)
    (h8 : ∀ b ∈ BLACKLIST, occursList b (collapseStrip x) = false) :
    strip_html (strip_html x) = strip_html x := by
  have e1 : strip_html x = collapseStrip x := strip_html_eq_collapseStrip x h1 h2 h3 h4 h5
  have r1 : '&' ∉ collapseStrip x := by
    intro hm
    rcases mem_collapseStrip hm with h | h
    · exact h1 h
    · exact absurd h (by decide)
  have r2 : '<' ∉ collapseStrip x := by
    intro hm
    rcases mem_collapseStrip hm with h | h
    · exact h2 h
    · exact absurd h (by decide)
  have e2 : strip_html (collapseStrip x) = collapseStrip (collapseStrip x) :=
    strip_html_eq_collapseStrip _ r1 r2 h6 h7 h8
  rw [e1, e2, collapseStrip_idem]

/-- Claim C7 counterexample: `strip_html` is not idempotent — entity
unescaping re-creates a tag that only the second pass removes. -/
theorem strip_html_not_idempotent :
    strip_html "&lt;p&gt;".data = "<p>".data ∧
    strip_html (strip_html "&lt;p&gt;".data) = [] ∧
    strip_html (strip_html "&lt;p&gt;".data) ≠ strip_html "&lt;p&gt;".data := by
  decide

/-- Claim C7 witness. -/
theorem strip_html_idempotent_on_witness :
    strip_html (strip_html "Bom dia, mundo cruel".data)
      = strip_html "Bom dia, mundo cruel".data :=
  strip_html_idempotent_on "Bom dia, mundo cruel".data (by decide) (by decide) (by decide)
    (by decide) (by decide) (by decide) (by decide) (by decide)

/-- Claim C8 (amended): when the stripped text exceeds `maxChars`, the
output of `summarize` has length at most `maxChars + 1`; it is the cut
prefix (trailing `" ,;:"` removed) plus an ellipsis; the cut is a prefix
of the stripped text; and when the first `maxChars` characters contain a
space the cut ends at a word boundary (the next character of the
stripped text is a space).  Without such a space the cut is a hard slice
at `maxChars` and can split a word — see the counterexample. -/
theorem summarize_length_and_boundary (x : List Char) (maxChars : Nat)
    (h : maxChars < (strip_html x).length) :
    (summarize x maxChars).length ≤ maxChars + 1 ∧
    summarize x maxChars
      = pyRstrip " ,;:".data (rsplitFirst ((strip_html x).take maxChars)) ++ ['…'] ∧
    rsplitFirst ((strip_html x).take maxChars) <+: strip_html x ∧
    (' ' ∈ (strip_html x).take maxChars →
      ∃ rest, strip_html x
        = rsplitFirst ((strip_html x).take maxChars) ++ ' ' :: rest) := by
  have hnle : ¬ (strip_html x).length ≤ maxChars := Nat.not_le.mpr h
  have heq : summarize x maxChars
      = pyRstrip " ,;:".data (rsplitFirst ((strip_html x).take maxChars)) ++ ['…'] := by
    simp [summarize, hnle]
  refine ⟨?_, heq, (rsplitFirst_isPrefix _).trans (List.take_prefix _ _), ?_⟩
  · rw [heq]
    have l1 : (pyRstrip " ,;:".data (rsplitFirst ((strip_html x).take maxChars))).length
        ≤ (rsplitFirst ((strip_html x).take maxChars)).length := pyRstrip_length _ _
    have l2 : (rsplitFirst ((strip_html x).take maxChars)).length
        ≤ ((strip_html x).take maxChars).length := (rsplitFirst_isPrefix _).length_le
    have l3 : ((strip_html x).take maxChars).length ≤ maxChars := by
      simp [List.length_take]
    rw [List.length_append]
    have l4 : (['…'] : List Char).length = 1 := rfl
    omega
  · intro hsp
    obtain ⟨t2, ht2⟩ := rsplitFirst_decomp ((strip_html x).take maxChars) hsp
    refine ⟨t2 ++ (strip_html x).drop maxChars, ?_⟩
    calc strip_html x
        = (strip_html x).take maxChars ++ (strip_html x).drop maxChars :=
          (List.take_append_drop _ _).symm
      _ = (rsplitFirst ((strip_html x).take maxChars) ++ ' ' :: t2)
            ++ (strip_html x).drop maxChars := by rw [← ht2]
      _ = rsplitFirst ((strip_html x).take maxChars)
            ++ ' ' :: (t2 ++ (strip_html x).drop maxChars) := by simp

/-- Claim C8 witness. -/
theorem summarize_length_and_boundary_witness :
    (summarize "um dois tres quatro".data 10).length ≤ 10 + 1 :=
  (summarize_length_and_boundary "um dois tres quatro".data 10 (by decide)).1

set_option maxRecDepth 200000 in
/-- Claim C8 counterexample: a 400-character single word is cut at
character 320 — neither at a space nor at the end of the text, i.e. in
the middle of the word (the length bound still holds: 321 ≤ 320 + 1). -/
theorem summarize_splits_midword :
    (strip_html (List.replicate 400 'a')).length = 400 ∧
    summarize (List.replicate 400 'a') 320 = List.replicate 320 'a' ++ ['…'] ∧
    ¬ (((strip_html (List.replicate 400 'a')).drop
          (rsplitFirst ((strip_html (List.replicate 400 'a')).take 320)).length).head?
            = some ' ' ∨
        (rsplitFirst ((strip_html (List.replicate 400 'a')).take 320)).length
          = (strip_html (List.replicate 400 'a')).length) := by
  decide

/-! ### The end-to-end collection scenario (claim C4) -/

/-- Feed A's first entry: 2024-01-01 10:00 UTC, link `L1`. -/
def entryA1 : RawEntry :=
  { title := some "A1", link := some "L1",
    published_parsed := some ({ year := 2024, hour := 10 } : TmSt) }

/-- Feed A's second entry: 2024-01-01 09:00 UTC, link `L2`. -/
def entryA2 : RawEntry :=
  { title := some "A2", link := some "L2",
    published_parsed := some ({ year := 2024, hour := 9 } : TmSt) }

/-- Feed B's entry: 2024-01-01 09:30 UTC, link `L2` — a link duplicate of
feed A's 09:00 entry. -/
def entryB1 : RawEntry :=
  { title := some "B1", link := some "L2",
    published_parsed := some ({ year := 2024, hour := 9, minute := 30 } : TmSt) }

def scenarioFetch : String → Feed := fun u =>
  if u = "uA" then { entries := [entryA1, entryA2] } else { entries := [entryB1] }

/-- Claim C4 (amended): the collector output is sorted descending by
timestamp; ties preserve discovery order (stable sort, as pair-sublist
preservation); a non-zero limit truncates the sorted collection to that
many entries; and in the two-feed scenario the link-duplicate 09:30
entry of feed B is dropped in favour of feed A's first-seen 09:00 entry,
so collecting with limit 10 yields [10:00 entry, 09:00 entry] (not
[10:00, 09:30] as the spec's example says). -/
theorem coletar_sorted_stable_truncated :
    (∀ (fetch : String → Feed) (horaFn : RawEntry → String) (tema : String)
        (urls : List String) (lim : Option Nat),
        (_coletar_de_feeds fetch horaFn tema urls lim).Pairwise
          (fun a b => sortKey b ≤ sortKey a)) ∧
    (∀ (fetch : String → Feed) (horaFn : RawEntry → String) (tema : String)
        (urls : List String) (l : Nat), l ≠ 0 →
        _coletar_de_feeds fetch horaFn tema urls (some l)
            = (sortDesc sortKey (coletarItens fetch horaFn tema urls)).take l ∧
        (_coletar_de_feeds fetch horaFn tema urls (some l)).length ≤ l) ∧
    (∀ (fetch : String → Feed) (horaFn : RawEntry → String) (tema : String)
        (urls : List String) (a b : CItem), sortKey a = sortKey b →
        [a, b].Sublist (coletarItens fetch horaFn tema urls) →
        [a, b].Sublist (sortDesc sortKey (coletarItens fetch horaFn tema urls))) ∧
    ((_coletar_de_feeds scenarioFetch (fun _ => "") "Tema" ["uA", "uB"] (some 10)).map
        (fun x => (x.jc_link, x.jc_ts))
      = [("L1", 1704103200), ("L2", 1704099600)]) := by
  refine ⟨?_, ?_, ?_, by decide⟩
  · intro fetch horaFn tema urls lim
    have hp := sortDesc_pairwise sortKey (coletarItens fetch horaFn tema urls)
    cases lim with
    | none => exact hp
    | some l =>
      by_cases hl : l = 0
      · simpa [_coletar_de_feeds, hl] using hp
      · have := hp.sublist (List.take_sublist l _)
        simpa [_coletar_de_feeds, hl] using this
  · intro fetch horaFn tema urls l hl
    constructor
    · simp [_coletar_de_feeds, hl]
    · simp only [_coletar_de_feeds, hl, ne_eq, not_false_iff, if_true]
      exact List.length_take_le l _
  · intro fetch horaFn tema urls a b hkey hsub
    exact sortDesc_stable_pair sortKey (le_of_eq hkey.symm) hsub

/-- Claim C4 counterexample: with the feed list `[A, B]` the collected
bucket is `[10:00 entry, 09:00 entry]` — feed B's 09:30 entry is dropped
by the link dedup (first occurrence wins), so the bucket is NOT
`[10:00, 09:30]` as the claim states (1704101400 is the 09:30 epoch). -/
theorem coletar_scenario_keeps_first_seen :
    (_coletar_de_feeds scenarioFetch (fun _ => "") "Tema" ["uA", "uB"] (some 10)).map
        (fun x => x.jc_ts) = [1704103200, 1704099600] ∧
    ¬ ((_coletar_de_feeds scenarioFetch (fun _ => "") "Tema" ["uA", "uB"] (some 10)).map
        (fun x => x.jc_ts) = [1704103200, 1704101400]) := by
  decide

/-- Claim C4 witness. -/
theorem coletar_sorted_stable_truncated_witness :
    _coletar_de_feeds scenarioFetch (fun _ => "") "Tema" ["uA", "uB"] (some 1)
        = (sortDesc sortKey (coletarItens scenarioFetch (fun _ => "") "Tema" ["uA", "uB"])).take 1 ∧
    (_coletar_de_feeds scenarioFetch (fun _ => "") "Tema" ["uA", "uB"] (some 1)).length ≤ 1 :=
  coletar_sorted_stable_truncated.2.1 scenarioFetch (fun _ => "") "Tema" ["uA", "uB"] 1
    (by decide)

/-! ### Deduplication invariants of the collector (claim C5) -/

/-- Invariant of the collector loop: the links of the accumulated items
are exactly the `vistos` list, which has no duplicates. -/
def collAccInv (acc : List CItem × List String) : Prop :=
  acc.1.map (fun x => x.jc_link) = acc.2 ∧ acc.2.Nodup

theorem collectStep_inv {horaFn : RawEntry → String} {tema : String}
    {acc : List CItem × List String} {e : RawEntry} (h : collAccInv acc) :
    collAccInv (collectStep horaFn tema acc e) := by
  obtain ⟨h1, h2⟩ := h
  by_cases hl : entry_link e = ""
  · simpa [collectStep, hl] using ⟨h1, h2⟩
  · by_cases hf : (decide (tema = "🌍 Economia") &&
        !(_match_economia (e.title.getD "").data (entry_summary e 280))) = true
    · simpa [collectStep, hl, hf] using ⟨h1, h2⟩
    · by_cases hm : entry_link e ∈ acc.2
      · simpa [collectStep, hl, hf, hm] using ⟨h1, h2⟩
      · have hstep : collectStep horaFn tema acc e
            = (acc.1 ++ [{ raw := e, jc_link := entry_link e, jc_ts := entry_ts e,
                           jc_hora := horaFn e, jc_summary := entry_summary e 280 }],
               acc.2 ++ [entry_link e]) := by
          simp [collectStep, hl, hf, hm]
        rw [hstep]
        refine ⟨by simp [h1], ?_⟩
        simp only [List.nodup_append, List.nodup_singleton, true_and]
        exact ⟨h2, by simpa [List.disjoint_singleton] using hm⟩

theorem foldEntries_inv (horaFn : RawEntry → String) (tema : String)
    (entries : List RawEntry) :
    ∀ acc, collAccInv acc →
      collAccInv (entries.foldl (collectStep horaFn tema) acc) := by
  induction entries with
  | nil => intro acc h; exact h
  | cons e rest ih => intro acc h; exact ih _ (collectStep_inv h)

theorem foldUrls_inv (fetch : String → Feed) (horaFn : RawEntry → String) (tema : String)
    (urls : List String) :
    ∀ acc, collAccInv acc →
      collAccInv (urls.foldl
        (fun acc url => (fetch url).entries.foldl (collectStep horaFn tema) acc) acc) := by
  induction urls with
  | nil => intro acc h; exact h
  | cons u rest ih => intro acc h; exact ih _ (foldEntries_inv horaFn tema _ acc h)

theorem coletarItens_inv (fetch : String → Feed) (horaFn : RawEntry → String)
    (tema : String) (urls : List String) :
    collAccInv (urls.foldl
      (fun acc url => (fetch url).entries.foldl (collectStep horaFn tema) acc) ([], [])) :=
  foldUrls_inv fetch horaFn tema urls ([], []) ⟨rfl, List.nodup_nil⟩

theorem coletarItens_nodup (fetch : String → Feed) (horaFn : RawEntry → String)
    (tema : String) (urls : List String) :
    ((coletarItens fetch horaFn tema urls).map (fun x => x.jc_link)).Nodup := by
  have h := coletarItens_inv fetch horaFn tema urls
  rw [show coletarItens fetch horaFn tema urls
      = (urls.foldl (fun acc url => (fetch url).entries.foldl (collectStep horaFn tema) acc)
          ([], [])).1 from rfl]
  rw [h.1]
  exact h.2

/-- `vistos` only grows. -/
theorem collectStep_mem_mono {horaFn : RawEntry → String} {tema : String}
    {acc : List CItem × List String} {e : RawEntry} {l : String} (h : l ∈ acc.2) :
    l ∈ (collectStep horaFn tema acc e).2 := by
  by_cases hl : entry_link e = ""
  · simpa [collectStep, hl] using h
  · by_cases hf : (decide (tema = "🌍 Economia") &&
        !(_match_economia (e.title.getD "").data (entry_summary e 280))) = true
    · simpa [collectStep, hl, hf] using h
    · by_cases hm : entry_link e ∈ acc.2
      · simpa [collectStep, hl, hf, hm] using h
      · simp only [collectStep, hl, hf, hm]
        simp [hl, hf, hm, List.mem_append, h]

/-- Processing an entry with a non-empty link for an unfiltered topic
leaves its link in `vistos`. -/
theorem collectStep_adds {horaFn : RawEntry → String} {tema : String}
    (acc : List CItem × List String) {e : RawEntry}
    (htema : tema ≠ "🌍 Economia") (hl : entry_link e ≠ "") :
    entry_link e ∈ (collectStep horaFn tema acc e).2 := by
  have hf : (decide (tema = "🌍 Economia") &&
      !(_match_economia (e.title.getD "").data (entry_summary e 280))) = false := by
    simp [htema]
  by_cases hm : entry_link e ∈ acc.2
  · simp [collectStep, hl, hf, hm]
  · simp [collectStep, hl, hf, hm]

theorem foldEntries_mem_mono (horaFn : RawEntry → String) (tema : String)
    (entries : List RawEntry) :
    ∀ acc (l : String), l ∈ acc.2 →
      l ∈ (entries.foldl (collectStep horaFn tema) acc).2 := by
  induction entries with
  | nil => intro acc l h; exact h
  | cons e rest ih => intro acc l h; exact ih _ l (collectStep_mem_mono h)

theorem foldEntries_adds (horaFn : RawEntry → String) (tema : String)
    {entries : List RawEntry} {e : RawEntry} (he : e ∈ entries)
    (htema : tema ≠ "🌍 Economia") (hl : entry_link e ≠ "") :
    ∀ acc, entry_link e ∈ (entries.foldl (collectStep horaFn tema) acc).2 := by
  induction entries with
  | nil => exact absurd he (List.not_mem_nil e)
  | cons e' rest ih =>
    intro acc
    rcases List.mem_cons.mp he with rfl | hmem
    · exact foldEntries_mem_mono horaFn tema rest _ _ (collectStep_adds acc htema hl)
    · exact ih hmem _

theorem foldUrls_mem_mono (fetch : String → Feed) (horaFn : RawEntry → String)
    (tema : String) (urls : List String) :
    ∀ acc (l : String), l ∈ acc.2 →
      l ∈ (urls.foldl
        (fun acc url => (fetch url).entries.foldl (collectStep horaFn tema) acc) acc).2 := by
  induction urls with
  | nil => intro acc l h; exact h
  | cons u rest ih =>
    intro acc l h
    exact ih _ l (foldEntries_mem_mono horaFn tema _ acc l h)

theorem foldUrls_adds (fetch : String → Feed) (horaFn : RawEntry → String)
    (tema : String) {urls : List String} {u : String} {e : RawEntry}
    (hu : u ∈ urls) (he : e ∈ (fetch u).entries)
    (htema : tema ≠ "🌍 Economia") (hl : entry_link e ≠ "") :
    ∀ acc, entry_link e ∈ (urls.foldl
      (fun acc url => (fetch url).entries.foldl (collectStep horaFn tema) acc) acc).2 := by
  induction urls with
  | nil => exact absurd hu (List.not_mem_nil u)
  | cons u' rest ih =>
    intro acc
    rcases List.mem_cons.mp hu with rfl | hmem
    · exact foldUrls_mem_mono fetch horaFn tema rest _ _
        (foldEntries_adds horaFn tema he htema hl acc)
    · exact ih hmem _

theorem coletarItens_link_mem (fetch : String → Feed) (horaFn : RawEntry → String)
    (tema : String) (urls : List String) {u : String} {e : RawEntry}
    (hu : u ∈ urls) (he : e ∈ (fetch u).entries)
    (htema : tema ≠ "🌍 Economia") (hl : entry_link e ≠ "") :
    entry_link e ∈ (coletarItens fetch horaFn tema urls).map (fun x => x.jc_link) := by
  have h := coletarItens_inv fetch horaFn tema urls
  rw [show coletarItens fetch horaFn tema urls
      = (urls.foldl (fun acc url => (fetch url).entries.foldl (collectStep horaFn tema) acc)
          ([], [])).1 from rfl]
  rw [h.1]
  exact foldUrls_adds fetch horaFn tema hu he htema hl ([], [])

/-- Invariant of the `normalize_list` loop: the keys of the kept entries
are distinct and all recorded in `seen`. -/
theorem normalize_listAux_nodup (horaFn : RawEntry → String) (limit : Nat) :
    ∀ (entries : List RawEntry) (seen : List (String × String)) (out : List NEntry),
      (out.map (fun n => (n.titulo, n.link))).Nodup →
      (∀ k ∈ out.map (fun n => (n.titulo, n.link)), k ∈ seen) →
      ((normalize_listAux horaFn limit seen out entries).map
          (fun n => (n.titulo, n.link))).Nodup := by
  intro entries
  induction entries with
  | nil =>
    intro seen out h1 _
    simpa [normalize_listAux] using h1
  | cons e rest ih =>
    intro seen out h1 h2
    by_cases hk : ((normalize_entry horaFn e).titulo, (normalize_entry horaFn e).link) ∈ seen
    · simpa [normalize_listAux, hk] using ih seen out h1 h2
    · have hnew : ((normalize_entry horaFn e).titulo, (normalize_entry horaFn e).link)
          ∉ out.map (fun n => (n.titulo, n.link)) := fun hmem => hk (h2 _ hmem)
      have h1' : ((out ++ [normalize_entry horaFn e]).map
          (fun n => (n.titulo, n.link))).Nodup := by
        simp only [List.map_append, List.map_cons, List.map_nil, List.nodup_append,
          List.nodup_singleton, true_and]
        exact ⟨h1, by simpa [List.disjoint_singleton] using hnew⟩
      by_cases hlim : limit ≤ out.length + 1
      · simpa [normalize_listAux, hk, hlim] using h1'
      · have h2' : ∀ k ∈ (out ++ [normalize_entry horaFn e]).map
            (fun n => (n.titulo, n.link)),
            k ∈ seen ++ [((normalize_entry horaFn e).titulo, (normalize_entry horaFn e).link)] := by
          intro k hkk
          simp only [List.map_append, List.map_cons, List.map_nil, List.mem_append,
            List.mem_singleton] at hkk
          rcases hkk with hkk | hkk
          · exact List.mem_append_left _ (h2 k hkk)
          · exact List.mem_append_right _ (by simp [hkk])
        simpa [normalize_listAux, hk, hlim] using
          ih (seen ++ [((normalize_entry horaFn e).titulo, (normalize_entry horaFn e).link)])
            (out ++ [normalize_entry horaFn e]) h1' h2'

/-- Claim C5 (amended): the collector keeps at most one item per link —
it drops any later entry whose link was already seen (first occurrence
wins), so a pair of raw entries with identical `(title, link)`
contributes at most one output item; when the link is non-empty and the
topic is unfiltered, exactly one item with that link is collected (an
entry whose link is empty is skipped outright, so an identical pair with
an empty link contributes zero — see the counterexample); and
`normalize_list` keeps at most one entry per `(titulo, link)` pair. -/
theorem collector_dedupes :
    (∀ (fetch : String → Feed) (horaFn : RawEntry → String) (tema : String)
        (urls : List String),
        ((coletarItens fetch horaFn tema urls).map (fun x => x.jc_link)).Nodup) ∧
    (∀ (fetch : String → Feed) (horaFn : RawEntry → String) (tema : String)
        (urls : List String) (lim : Option Nat),
        ((_coletar_de_feeds fetch horaFn tema urls lim).map (fun x => x.jc_link)).Nodup) ∧
    (∀ (fetch : String → Feed) (horaFn : RawEntry → String) (tema : String)
        (urls : List String) (u : String) (e : RawEntry),
        tema ≠ "🌍 Economia" → u ∈ urls → e ∈ (fetch u).entries → entry_link e ≠ "" →
        ((_coletar_de_feeds fetch horaFn tema urls none).map
            (fun x => x.jc_link)).count (entry_link e) = 1) ∧
    (∀ (horaFn : RawEntry → String) (entries : List RawEntry) (limit : Nat),
        ((normalize_list horaFn entries limit).map
            (fun n => (n.titulo, n.link))).Nodup) := by
  have hsortnodup : ∀ (fetch : String → Feed) (horaFn : RawEntry → String) (tema : String)
      (urls : List String),
      ((sortDesc sortKey (coletarItens fetch horaFn tema urls)).map
          (fun x => x.jc_link)).Nodup := by
    intro fetch horaFn tema urls
    have hperm : ((sortDesc sortKey (coletarItens fetch horaFn tema urls)).map
        (fun x => x.jc_link)).Perm
        ((coletarItens fetch horaFn tema urls).map (fun x => x.jc_link)) :=
      (sortDesc_perm sortKey _).map _
    exact hperm.nodup_iff.mpr (coletarItens_nodup fetch horaFn tema urls)
  refine ⟨coletarItens_nodup, ?_, ?_, ?_⟩
  · intro fetch horaFn tema urls lim
    cases lim with
    | none => exact hsortnodup fetch horaFn tema urls
    | some l =>
      by_cases hl : l = 0
      · simpa [_coletar_de_feeds, hl] using hsortnodup fetch horaFn tema urls
      · have hsub : (((sortDesc sortKey (coletarItens fetch horaFn tema urls)).take l).map
            (fun x => x.jc_link)).Sublist
            ((sortDesc sortKey (coletarItens fetch horaFn tema urls)).map
              (fun x => x.jc_link)) := (List.take_sublist l _).map _
        have := (hsortnodup fetch horaFn tema urls).sublist hsub
        simpa [_coletar_de_feeds, hl] using this
  · intro fetch horaFn tema urls u e htema hu he hl
    have hperm : ((sortDesc sortKey (coletarItens fetch horaFn tema urls)).map
        (fun x => x.jc_link)).Perm
        ((coletarItens fetch horaFn tema urls).map (fun x => x.jc_link)) :=
      (sortDesc_perm sortKey _).map _
    have hmem : entry_link e ∈ (coletarItens fetch horaFn tema urls).map
        (fun x => x.jc_link) :=
      coletarItens_link_mem fetch horaFn tema urls hu he htema hl
    have hone : ((coletarItens fetch horaFn tema urls).map
        (fun x => x.jc_link)).count (entry_link e) = 1 :=
      List.count_eq_one_of_mem (coletarItens_nodup fetch horaFn tema urls) hmem
    show ((sortDesc sortKey (coletarItens fetch horaFn tema urls)).map
        (fun x => x.jc_link)).count (entry_link e) = 1
    rw [hperm.count_eq, hone]
  · intro horaFn entries limit
    exact normalize_listAux_nodup horaFn limit entries [] [] (by simp) (by simp)

/-- An entry pair with identical title and an empty link. -/
def entryDup : RawEntry := { title := some "Repetida", link := some "" }

/-- A pair with identical title and a non-empty link. -/
def entryKept : RawEntry := { title := some "Mantida", link := some "LX" }

/-- Claim C5 counterexample: two raw entries with identical
`(title, link)` whose link is empty are BOTH skipped — the collector
output contains zero entries for the pair, not exactly one. -/
theorem dedup_pair_dropped_when_link_empty :
    _coletar_de_feeds (fun _ => { entries := [entryDup, entryDup] }) (fun _ => "")
        "Tema" ["u"] none = [] ∧
    ¬ (((_coletar_de_feeds (fun _ => { entries := [entryDup, entryDup] }) (fun _ => "")
        "Tema" ["u"] none).map (fun x => x.jc_link)).count (entry_link entryDup) = 1) := by
  decide

/-- Claim C5 witness. -/
theorem collector_dedupes_witness :
    ((_coletar_de_feeds (fun _ => { entries := [entryKept, entryKept] }) (fun _ => "")
        "Tema" ["u"] none).map (fun x => x.jc_link)).count (entry_link entryKept) = 1 :=
  collector_dedupes.2.2.1 (fun _ => { entries := [entryKept, entryKept] }) (fun _ => "")
    "Tema" ["u"] "u" entryKept (by decide) (by decide) (by decide) (by decide)

end JC
